import Mathlib

/-!
Verification development for the UNO-variant rule engine (`src/logic.ts`).

The TypeScript logic module is shallowly embedded below.  Conventions:
* card identifiers `c-<n>` are modelled by the natural number `n`;
* player identifiers (strings from the platform) are modelled by `String`;
* `Math.random`-driven shuffling is modelled by an explicit shuffle
  function parameter `sh : List Card → List Card`; the property
  `IsShuffle sh` (the output is a permutation of the input) is everything
  the Fisher–Yates shuffle guarantees about the multiset of cards;
* JS arrays used as stacks keep the JS order: `push`/`pop`/top are the
  *end* of the list, `unshift` is the front;
* actions mutate the single shared state in place and abort with
  `Rune.invalidAction()`; they are modelled as
  `GameState → Except GameState GameState` where `Except.error e` means
  "the action threw, and the state at the moment of the throw was `e`".
  This keeps the mutation *order* observable, so rejection atomicity
  (faults fire before any mutation) is a real theorem, not a tautology.
-/

inductive Color where
  | red | blue | green | yellow
deriving DecidableEq, Repr

/-- Card face values; `num n` models the digit strings "0".."9". -/
inductive Value where
  | num (n : Nat)
  | skip
  | reverse
  | drawTwo
  | wild
  | wildDrawFour
deriving DecidableEq, Repr

/-- `color = none` models the `null` color of a wild-family card. -/
structure Card where
  color : Option Color
  value : Value
  id : Nat
deriving DecidableEq, Repr

structure PlayerState where
  id : String
  hand : List Card
  hasCalledUno : Bool
deriving DecidableEq, Repr

structure GameState where
  deck : List Card
  discardPile : List Card
  players : List PlayerState
  currentPlayerIndex : Nat
  direction : Int
  currentColor : Color
  winner : Option String
  drawnCard : Option Card
  lastAction : Option String
  drawStack : Nat
  playerCache : List (String × List Card)
deriving DecidableEq, Repr

def defaultCard : Card := ⟨none, Value.wild, 0⟩

def defaultPlayer : PlayerState := ⟨"", [], false⟩

def getPlayer (ps : List PlayerState) (i : Nat) : PlayerState :=
  ps.getD i defaultPlayer

/-- JS `Array.prototype.findIndex`, with `none` in place of `-1`. -/
def findIdxA (p : α → Bool) : List α → Option Nat
  | [] => none
  | a :: as => if p a then some 0 else (findIdxA p as).map (· + 1)

/-- JS `Array.prototype.pop`: removes and returns the last element
(`undefined`, i.e. `none`, on an empty array, which is left unchanged). -/
def popCard (l : List Card) : Option Card × List Card :=
  (l.getLast?, l.dropLast)

/-- The shuffle used by the engine is only known to permute its input. -/
def IsShuffle (sh : List Card → List Card) : Prop :=
  ∀ l : List Card, List.Perm (sh l) l

def idShuffle : List Card → List Card := fun l => l

theorem isShuffle_id : IsShuffle idShuffle := fun l => List.Perm.refl l

/-- `createDeck`: one block of 25 cards per color (one 0, two of each of
1..9, two each of skip/reverse/drawTwo), ids running sequentially from
`base`, mirroring the id counter of the source. -/
def colorBlock (col : Color) (base : Nat) : List Card :=
  ⟨some col, Value.num 0, base⟩ ::
    ((List.range 9).flatMap fun i =>
      [⟨some col, Value.num (i + 1), base + 1 + 2 * i⟩,
       ⟨some col, Value.num (i + 1), base + 2 + 2 * i⟩]) ++
    [⟨some col, Value.skip, base + 19⟩, ⟨some col, Value.skip, base + 20⟩,
     ⟨some col, Value.reverse, base + 21⟩, ⟨some col, Value.reverse, base + 22⟩,
     ⟨some col, Value.drawTwo, base + 23⟩, ⟨some col, Value.drawTwo, base + 24⟩]

/-- The canonical 108-card deck: four color blocks (ids 0..99) followed by
4 wild / 4 wildDrawFour pairs (ids 100..107), in source push order. -/
def createDeck : List Card :=
  colorBlock Color.red 0 ++ colorBlock Color.blue 25 ++
    colorBlock Color.green 50 ++ colorBlock Color.yellow 75 ++
    ((List.range 4).flatMap fun i =>
      [⟨none, Value.wild, 100 + 2 * i⟩, ⟨none, Value.wildDrawFour, 101 + 2 * i⟩])

/-- `getNextPlayerIndex` from the source; the JS `%` coincides with the
Int `emod` here because the dividend is nonnegative for `direction ≥ -1`. -/
def getNextPlayerIndex (current : Nat) (direction : Int) (numPlayers : Nat) : Nat :=
  if numPlayers = 0 then 0
  else (((current : Int) + direction + numPlayers) % (numPlayers : Int)).toNat

/-- `isValidMove(card, topCard, currentColor, isDrawingPhase)`. -/
def isValidMove (card topCard : Card) (currentColor : Color)
    (isDrawingPhase : Bool) : Bool :=
  if card.color = none then true
  else if isDrawingPhase &&
      (topCard.value == Value.drawTwo || topCard.value == Value.wildDrawFour) then
    card.value == Value.drawTwo || card.value == Value.wildDrawFour
  else if card.color = some currentColor then true
  else if card.value == topCard.value then true
  else false

/-- Color stripping applied to recycled wild-family cards in `ensureDeck`. -/
def clearWildColor (c : Card) : Card :=
  if c.value == Value.wild || c.value == Value.wildDrawFour then
    { c with color := none }
  else c

/-- Core of `ensureDeck`, acting on the (deck, discardPile) pair. -/
def ensureDP (sh : List Card → List Card) :
    List Card × List Card → List Card × List Card
  | (deck, pile) =>
    if deck.length = 0 then
      if 1 < pile.length then
        match popCard pile with
        | (some top, rest) => ((sh rest).map clearWildColor, [top])
        | (none, _) => (deck, pile)
      else (deck, pile)
    else (deck, pile)

/-- `ensureDeck(game)`. -/
def ensureDeck (sh : List Card → List Card) (s : GameState) : GameState :=
  let dp := ensureDP sh (s.deck, s.discardPile)
  { s with deck := dp.1, discardPile := dp.2 }

/-- The `for (...) { ensureDeck(game); const c = game.deck.pop(); if (c) ... }`
loop pattern: draws up to `n` cards, refilling from the discard pile as
needed; returns (deck, pile, drawn cards in pop order). -/
def drawN (sh : List Card → List Card) :
    Nat → List Card × List Card → List Card × List Card × List Card
  | 0, dp => (dp.1, dp.2, [])
  | n + 1, dp =>
    match popCard (ensureDP sh dp).1 with
    | (none, d2) => drawN sh n (d2, (ensureDP sh dp).2)
    | (some c, d2) =>
        ((drawN sh n (d2, (ensureDP sh dp).2)).1,
         (drawN sh n (d2, (ensureDP sh dp).2)).2.1,
         c :: (drawN sh n (d2, (ensureDP sh dp).2)).2.2)

/-- JS string `+=` on a `string | null` coerces `null` to `"null"`. -/
def appendLA (o : Option String) (suffix : String) : Option String :=
  some ((o.getD "null") ++ suffix)

-- basic lemmas about the helpers ---------------------------------------

theorem popCard_nil : popCard [] = (none, []) := rfl

theorem popCard_none {l l' : List Card} (h : popCard l = (none, l')) :
    l = [] ∧ l' = [] := by
  have h1 : l.getLast? = none := congrArg Prod.fst h
  have h2 : l.dropLast = l' := congrArg Prod.snd h
  have hl : l = [] := List.getLast?_eq_none_iff.mp h1
  subst hl
  exact ⟨rfl, h2.symm⟩

theorem popCard_some {l l' : List Card} {c : Card}
    (h : popCard l = (some c, l')) : l = l' ++ [c] := by
  have h1 : l.getLast? = some c := congrArg Prod.fst h
  have h2 : l.dropLast = l' := congrArg Prod.snd h
  have hm : c ∈ l.getLast? := Option.mem_def.mpr h1
  have := List.dropLast_append_getLast? c hm
  rw [h2] at this
  exact this.symm

theorem popCard_length_some {l l' : List Card} {c : Card}
    (h : popCard l = (some c, l')) : l.length = l'.length + 1 := by
  have := popCard_some h
  simp [this]

theorem findIdxA_lt {p : α → Bool} {l : List α} {i : Nat}
    (h : findIdxA p l = some i) : i < l.length := by
  induction l generalizing i with
  | nil => simp [findIdxA] at h
  | cons a as ih =>
    simp only [findIdxA] at h
    by_cases hp : p a
    · simp only [hp, if_pos] at h
      have : i = 0 := by injection h with h'; omega
      simp [this]
    · simp [hp] at h
      obtain ⟨j, hj, hji⟩ := h
      have := ih hj
      simp only [List.length_cons]
      omega

theorem findIdxA_getD {p : α → Bool} {l : List α} {i : Nat} (d : α)
    (h : findIdxA p l = some i) : p (l.getD i d) = true := by
  induction l generalizing i with
  | nil => simp [findIdxA] at h
  | cons a as ih =>
    simp only [findIdxA] at h
    by_cases hp : p a
    · simp [hp] at h; simp [← h, hp]
    · simp [hp] at h
      obtain ⟨j, hj, hji⟩ := h
      subst hji
      simpa using ih hj

-- ----------------------------------------------------------------------
-- Action handlers (`Rune.initLogic`'s `actions` block)
-- ----------------------------------------------------------------------

def stackable (c : Card) : Bool :=
  c.value == Value.drawTwo || c.value == Value.wildDrawFour

def valueText : Value → String
  | Value.num n => toString n
  | Value.skip => "skip"
  | Value.reverse => "reverse"
  | Value.drawTwo => "drawTwo"
  | Value.wild => "wild"
  | Value.wildDrawFour => "wildDrawFour"

/-- Card resolution in `playCard` (source lines 249-258): from the hand by
index if present, otherwise the held drawn card when its id matches.
Returns the card and the `playingDrawn` flag. -/
def playResolveCard (p : PlayerState) (drawn : Option Card) (cid : Nat) :
    Option (Card × Bool) :=
  match findIdxA (fun c => c.id == cid) p.hand with
  | some ci => some (p.hand.getD ci defaultCard, false)
  | none =>
    match drawn with
    | some dc => if dc.id == cid then some (dc, true) else none
    | none => none

/-- The validation prefix of `playCard` (source lines 244-276): everything
up to and including the missing-color check throws before any mutation.
Returns the acting player's index, the resolved card, and whether it was
the held drawn card (`playingDrawn`). -/
def playValidate (pid : String) (cid : Nat) (selectedColor : Option Color)
    (s : GameState) : Option (Nat × Card × Bool) :=
  match findIdxA (fun p => p.id == pid) s.players with
  | none => none
  | some playerIndex =>
    if s.currentPlayerIndex ≠ playerIndex then none
    else
      match playResolveCard (getPlayer s.players playerIndex) s.drawnCard cid with
      | none => none
      | some (card, pd) =>
        if !(isValidMove card (s.discardPile.getLastD defaultCard)
              s.currentColor (decide (0 < s.drawStack))
            || (decide (0 < s.drawStack) && stackable card)) then none
        else if (card.value == Value.wild || card.value == Value.wildDrawFour)
            && selectedColor.isNone then none
        else some (playerIndex, card, pd)

/-- Source lines 278-286: remove the card from the hand (or clear the held
drawn card), push it on the discard pile, set the active color and the
last-action text. -/
def playPlace (pid : String) (pi' : Nat) (cid : Nat) (card : Card) (pd : Bool)
    (selectedColor : Option Color) (s : GameState) : GameState :=
  let s0 :=
    if pd then { s with drawnCard := none }
    else
      let p := getPlayer s.players pi'
      let ci := (findIdxA (fun c => c.id == cid) p.hand).getD 0
      { s with players := s.players.set pi' { p with hand := p.hand.eraseIdx ci } }
  let newColor :=
    match card.color with
    | some c => c
    | none => selectedColor.getD s0.currentColor
  { s0 with discardPile := s0.discardPile ++ [card],
            currentColor := newColor,
            lastAction := some (pid ++ " played " ++ valueText card.value) }

/-- Source lines 294-302: the 2-card catch-penalty when the hand is down to
one card without a low-hand (UNO) declaration (an `ensureDeck` before the
loop, then twice `ensureDeck` + pop + push). -/
def playPenalty (sh : List Card → List Card) (pi' : Nat) (s : GameState) :
    GameState :=
  if (getPlayer s.players pi').hand.length = 1
      && !(getPlayer s.players pi').hasCalledUno then
    { s with
      deck := (drawN sh 2 (ensureDP sh (s.deck, s.discardPile))).1,
      discardPile := (drawN sh 2 (ensureDP sh (s.deck, s.discardPile))).2.1,
      players := s.players.set pi'
        { getPlayer s.players pi' with
            hand := (getPlayer s.players pi').hand ++
              (drawN sh 2 (ensureDP sh (s.deck, s.discardPile))).2.2 },
      lastAction := appendLA s.lastAction " (Forgot UNO! draws 2)" }
  else s

/-- Source line 304: any hand size above one clears the UNO flag. -/
def playClearUno (pi' : Nat) (s : GameState) : GameState :=
  if 1 < (getPlayer s.players pi').hand.length then
    { s with
      players := s.players.set pi'
        { getPlayer s.players pi' with hasCalledUno := false } }
  else s

/-- Source lines 306-334: reverse/skip/drawTwo/wildDrawFour side effects and
the turn advance (twice under a skip effect). -/
def playEffects (card : Card) (s : GameState) : GameState :=
  let dirSkip :=
    match card.value with
    | Value.reverse =>
        if s.players.length = 2 then (s.direction, true) else (-s.direction, false)
    | Value.skip => (s.direction, true)
    | _ => (s.direction, false)
  let stack :=
    match card.value with
    | Value.drawTwo => s.drawStack + 2
    | Value.wildDrawFour => s.drawStack + 4
    | _ => s.drawStack
  let i1 := getNextPlayerIndex s.currentPlayerIndex dirSkip.1 s.players.length
  let i2 := if dirSkip.2 then getNextPlayerIndex i1 dirSkip.1 s.players.length else i1
  { s with direction := dirSkip.1, drawStack := stack, currentPlayerIndex := i2,
           lastAction :=
             if dirSkip.2 then appendLA s.lastAction " (Skipped next player)"
             else s.lastAction }

/-- Source lines 336-357: if a draw stack is pending after advancing, the new
current player either may stack (state untouched) or is forced to draw the
whole stack, after which the stack resets and the turn advances again. -/
def playResolveStack (sh : List Card → List Card) (s : GameState) : GameState :=
  if 0 < s.drawStack then
    if (getPlayer s.players s.currentPlayerIndex).hand.any stackable then s
    else
      { s with
        deck := (drawN sh s.drawStack (ensureDP sh (s.deck, s.discardPile))).1,
        discardPile := (drawN sh s.drawStack (ensureDP sh (s.deck, s.discardPile))).2.1,
        players := s.players.set s.currentPlayerIndex
          { getPlayer s.players s.currentPlayerIndex with
              hand := (getPlayer s.players s.currentPlayerIndex).hand ++
                (drawN sh s.drawStack (ensureDP sh (s.deck, s.discardPile))).2.2 },
        lastAction := appendLA s.lastAction
          (" (" ++ (getPlayer s.players s.currentPlayerIndex).id ++ " draws cards)"),
        drawStack := 0,
        currentPlayerIndex :=
          getNextPlayerIndex s.currentPlayerIndex s.direction s.players.length }
  else s

/-- `playCard` action: `Except.error e` models `throw Rune.invalidAction()`
with `e` the state at the moment of the throw. -/
def playCardE (sh : List Card → List Card) (pid : String) (cid : Nat)
    (selectedColor : Option Color) (s : GameState) :
    Except GameState GameState :=
  match playValidate pid cid selectedColor s with
  | none => Except.error s
  | some (pi', card, pd) =>
    if (getPlayer (playPlace pid pi' cid card pd selectedColor s).players pi').hand.length
        = 0 then
      -- winner recorded; `Rune.gameOver` reported; early return
      Except.ok { playPlace pid pi' cid card pd selectedColor s with winner := some pid }
    else
      -- catch-penalty, UNO-flag clearing, card effects with turn advance,
      -- forced stack resolution, then the unconditional drawn-card clear
      Except.ok { playResolveStack sh
          (playEffects card (playClearUno pi'
            (playPenalty sh pi' (playPlace pid pi' cid card pd selectedColor s)))) with
        drawnCard := none }

/-- `drawCard` action (source lines 362-394). -/
def drawCardE (sh : List Card → List Card) (pid : String) (s : GameState) :
    Except GameState GameState :=
  match findIdxA (fun p => p.id == pid) s.players with
  | none => Except.error s
  | some pi' =>
    if s.currentPlayerIndex ≠ pi' then Except.error s
    else if 0 < s.drawStack then
      Except.ok { s with
        deck := (drawN sh s.drawStack (ensureDP sh (s.deck, s.discardPile))).1,
        discardPile := (drawN sh s.drawStack (ensureDP sh (s.deck, s.discardPile))).2.1,
        players := s.players.set pi'
          { getPlayer s.players pi' with
              hand := (getPlayer s.players pi').hand ++
                (drawN sh s.drawStack (ensureDP sh (s.deck, s.discardPile))).2.2,
              hasCalledUno := false },
        lastAction := appendLA s.lastAction
          (" (" ++ (getPlayer s.players pi').id ++ " draws cards)"),
        drawStack := 0,
        currentPlayerIndex :=
          getNextPlayerIndex s.currentPlayerIndex s.direction s.players.length }
    else if s.drawnCard.isSome then Except.error s
    else
      let s1 := ensureDeck sh s
      match popCard s1.deck with
      | (none, _) => Except.error s1
      | (some c, d') =>
        let p := getPlayer s1.players pi'
        let ps2 := s1.players.set pi' { p with hasCalledUno := false }
        let la2 := some (pid ++ " drew a card.")
        Except.ok { s1 with deck := d', drawnCard := some c, lastAction := la2, players := ps2 }

/-- `passTurn` action (source lines 396-414). -/
def passTurnE (pid : String) (s : GameState) : Except GameState GameState :=
  match findIdxA (fun p => p.id == pid) s.players with
  | none => Except.error s
  | some pi' =>
    if s.currentPlayerIndex ≠ pi' then Except.error s
    else
      match s.drawnCard with
      | none => Except.error s
      | some dc =>
        if 0 < s.drawStack then Except.error s
        else
          let p := getPlayer s.players pi'
          Except.ok { s with
            players := s.players.set pi'
              { p with hand := p.hand ++ [dc], hasCalledUno := false },
            drawnCard := none,
            lastAction := some (pid ++ " passed their turn."),
            currentPlayerIndex :=
              getNextPlayerIndex s.currentPlayerIndex s.direction
                s.players.length }

/-- `callUno` action (source lines 416-431); the source's `find` and
`findIndex` on the same predicate are modelled by a single index search. -/
def callUnoE (pid : String) (s : GameState) : Except GameState GameState :=
  match findIdxA (fun p => p.id == pid) s.players with
  | none => Except.error s
  | some i =>
    let player := getPlayer s.players i
    if s.currentPlayerIndex = i then
      if 2 < player.hand.length then Except.error s
      else
        Except.ok { s with
          players := s.players.set i { player with hasCalledUno := true },
          lastAction := some (pid ++ " called UNO!") }
    else Except.error s

-- ----------------------------------------------------------------------
-- Roster events
-- ----------------------------------------------------------------------

def cacheLookup (k : String) (m : List (String × List Card)) :
    Option (List Card) :=
  (m.find? (fun kv => kv.1 == k)).map (fun kv => kv.2)

def cacheErase (k : String) (m : List (String × List Card)) :
    List (String × List Card) :=
  m.filter (fun kv => !(kv.1 == k))

/-- JS `record[k] = v`: at most one binding per key. -/
def cacheSet (k : String) (v : List Card) (m : List (String × List Card)) :
    List (String × List Card) :=
  (k, v) :: cacheErase k m

/-- `playerJoined` event (source lines 434-461). -/
def playerJoined (sh : List Card → List Card) (pid : String) (s : GameState) :
    GameState :=
  if s.players.any (fun p => p.id == pid) then s
  else
    match cacheLookup pid s.playerCache with
    | some hand =>
      { s with playerCache := cacheErase pid s.playerCache,
               players := s.players ++ [⟨pid, hand, false⟩],
               lastAction := some (pid ++ " joined.") }
    | none =>
      let dp0 := ensureDP sh (s.deck, s.discardPile)
      let r := drawN sh 7 dp0
      { s with deck := r.1, discardPile := r.2.1,
               players := s.players ++ [⟨pid, r.2.2, false⟩],
               lastAction := some (pid ++ " joined.") }

/-- `playerLeft` event (source lines 462-494). -/
def playerLeft (pid : String) (s : GameState) : GameState :=
  match findIdxA (fun p => p.id == pid) s.players with
  | none => s
  | some idx =>
    let player := getPlayer s.players idx
    let cache' := cacheSet pid player.hand s.playerCache
    let wasCurrent := idx = s.currentPlayerIndex
    let players' := s.players.eraseIdx idx
    let cpi :=
      if players'.length = 0 then 0
      else
        (if idx < s.currentPlayerIndex then s.currentPlayerIndex - 1
         else s.currentPlayerIndex) % players'.length
    { s with players := players', playerCache := cache',
             currentPlayerIndex := cpi,
             drawnCard := if wasCurrent then none else s.drawnCard,
             lastAction := some (pid ++ " left.") }

-- ----------------------------------------------------------------------
-- Setup
-- ----------------------------------------------------------------------

/-- The 7-cards-per-player dealing loop of `setup` (plain `deck.pop()` with
no refill): returns (remaining deck, drawn cards in pop order). -/
def dealSimple : Nat → List Card → List Card × List Card
  | 0, d => (d, [])
  | n + 1, d =>
    match popCard d with
    | (some c, d') =>
        let r := dealSimple n d'
        (r.1, c :: r.2)
    | (none, _) => (d, [])

/-- `for (const player of players) { ...deal 7... }`. -/
def dealAll : List PlayerState → List Card → List PlayerState × List Card
  | [], d => ([], d)
  | p :: ps, d =>
    let r := dealSimple 7 d
    let rest := dealAll ps r.1
    ({ p with hand := p.hand ++ r.2 } :: rest.1, rest.2)

/-- The `do { ... } while (startCard.value === "wildDrawFour")` loop flipping
the start card: a popped wildDrawFour is pushed back to the bottom
(`unshift`) and the deck reshuffled; an empty deck is replaced by a fresh
shuffled `createDeck()`.  The loop has no structural bound (an adversarial
shuffle keeps it spinning), so it takes fuel; `none` models divergence. -/
def startLoop (sh : List Card → List Card) :
    Nat → List Card → Option (Card × List Card)
  | 0, _ => none
  | fuel + 1, deck =>
    let deck1 := if deck.length = 0 then sh createDeck else deck
    match popCard deck1 with
    | (none, _) => none
    | (some c, d) =>
      if c.value == Value.wildDrawFour then startLoop sh fuel (sh (c :: d))
      else some (c, d)

/-- Initial skip/reverse/drawTwo start-card effects of `setup` (source
lines 195-226): returns (currentPlayerIndex, direction, drawStack,
players, deck). -/
def setupEffects (startCard : Card) (players1 : List PlayerState)
    (deck2 : List Card) : Nat × Int × Nat × List PlayerState × List Card :=
  if players1.length = 0 then (0, 1, 0, players1, deck2)
  else
    match startCard.value with
    | Value.skip =>
        (getNextPlayerIndex 0 1 players1.length, 1, 0, players1, deck2)
    | Value.reverse =>
        if players1.length = 2 then
          (getNextPlayerIndex 0 1 players1.length, 1, 0, players1, deck2)
        else (0, -1, 0, players1, deck2)
    | Value.drawTwo =>
        (getNextPlayerIndex 0 1 players1.length, 1, 2,
         players1.set 0
           { getPlayer players1 0 with
               hand := (getPlayer players1 0).hand ++ (dealSimple 2 deck2).2 },
         (dealSimple 2 deck2).1)
    | _ => (0, 1, 0, players1, deck2)

/-- `setup(allPlayerIds)` (source lines 155-241). -/
def setup (sh : List Card → List Card) (fuel : Nat) (ids : List String) :
    Option GameState :=
  match startLoop sh fuel
      (dealAll (ids.map (fun i => (⟨i, [], false⟩ : PlayerState))) (sh createDeck)).2 with
  | none => none
  | some (startCard, deck2) =>
    some { deck := (setupEffects startCard
             (dealAll (ids.map (fun i => (⟨i, [], false⟩ : PlayerState)))
               (sh createDeck)).1 deck2).2.2.2.2,
           discardPile := [startCard],
           players := (setupEffects startCard
             (dealAll (ids.map (fun i => (⟨i, [], false⟩ : PlayerState)))
               (sh createDeck)).1 deck2).2.2.2.1,
           currentPlayerIndex := (setupEffects startCard
             (dealAll (ids.map (fun i => (⟨i, [], false⟩ : PlayerState)))
               (sh createDeck)).1 deck2).1,
           direction := (setupEffects startCard
             (dealAll (ids.map (fun i => (⟨i, [], false⟩ : PlayerState)))
               (sh createDeck)).1 deck2).2.1,
           currentColor :=
             match startCard.color with
             | some c => c
             | none => Color.red,
           winner := none, drawnCard := none,
           lastAction := some "Game Started",
           drawStack := (setupEffects startCard
             (dealAll (ids.map (fun i => (⟨i, [], false⟩ : PlayerState)))
               (sh createDeck)).1 deck2).2.2.1,
           playerCache := [] }

/-- Reachability: states produced by `setup` under the registered player
bounds (`minPlayers: 1, maxPlayers: 6`), closed under accepted actions and
roster events, each step using an arbitrary permutation as its shuffle. -/
inductive Reachable : List String → GameState → Prop where
  | start (sh : List Card → List Card) (fuel : Nat) (ids : List String)
      (s : GameState) :
      IsShuffle sh → 1 ≤ ids.length → ids.length ≤ 6 →
      setup sh fuel ids = some s → Reachable ids s
  | play (ids : List String) (sh : List Card → List Card) (pid : String)
      (cid : Nat) (col : Option Color) (s s' : GameState) :
      Reachable ids s → IsShuffle sh →
      playCardE sh pid cid col s = Except.ok s' → Reachable ids s'
  | draw (ids : List String) (sh : List Card → List Card) (pid : String)
      (s s' : GameState) :
      Reachable ids s → IsShuffle sh →
      drawCardE sh pid s = Except.ok s' → Reachable ids s'
  | pass (ids : List String) (pid : String) (s s' : GameState) :
      Reachable ids s → passTurnE pid s = Except.ok s' → Reachable ids s'
  | uno (ids : List String) (pid : String) (s s' : GameState) :
      Reachable ids s → callUnoE pid s = Except.ok s' → Reachable ids s'
  | joined (ids : List String) (sh : List Card → List Card) (pid : String)
      (s : GameState) :
      Reachable ids s → IsShuffle sh → Reachable ids (playerJoined sh pid s)
  | left (ids : List String) (pid : String) (s : GameState) :
      Reachable ids s → Reachable ids (playerLeft pid s)

-- ----------------------------------------------------------------------
-- Card accounting
-- ----------------------------------------------------------------------

/-- The multiset of card identifiers in a list of cards. -/
def idsOf (cs : List Card) : Multiset Nat := (cs.map Card.id : List Nat)

def handsIds (ps : List PlayerState) : Multiset Nat :=
  (ps.map (fun p => idsOf p.hand)).sum

def cacheIds (m : List (String × List Card)) : Multiset Nat :=
  (m.map (fun kv => idsOf kv.2)).sum

def drawnIds : Option Card → Multiset Nat
  | none => 0
  | some c => {c.id}

/-- All card identifiers in circulation: deck, discard pile, hands, the
held drawn card, and the cached hands of departed players. -/
def totalIds (s : GameState) : Multiset Nat :=
  idsOf s.deck + idsOf s.discardPile + handsIds s.players +
    drawnIds s.drawnCard + cacheIds s.playerCache

def canonicalIds : Multiset Nat := idsOf createDeck

theorem idsOf_nil : idsOf [] = 0 := rfl

theorem idsOf_append (a b : List Card) : idsOf (a ++ b) = idsOf a + idsOf b := by
  simp [idsOf]

theorem idsOf_cons (c : Card) (l : List Card) :
    idsOf (c :: l) = c.id ::ₘ idsOf l := by
  simp [idsOf]

theorem idsOf_perm {a b : List Card} (h : List.Perm a b) : idsOf a = idsOf b := by
  simp only [idsOf]
  exact Multiset.coe_eq_coe.mpr (h.map Card.id)

theorem clearWildColor_id (c : Card) : (clearWildColor c).id = c.id := by
  unfold clearWildColor
  split <;> rfl

theorem idsOf_map_clearWild (l : List Card) :
    idsOf (l.map clearWildColor) = idsOf l := by
  simp only [idsOf, List.map_map]
  have : Card.id ∘ clearWildColor = Card.id := by
    funext c
    simp only [Function.comp_apply]
    exact clearWildColor_id c
  rw [this]

theorem handsIds_append (ps qs : List PlayerState) :
    handsIds (ps ++ qs) = handsIds ps + handsIds qs := by
  simp [handsIds]

-- ----------------------------------------------------------------------
-- C2: move validation in the penalty phase
-- ----------------------------------------------------------------------

/-- C2 (counterexample): with a pending draw stack and a drawTwo on top of
the pile, a plain (colorless) wild card is deemed legal by `isValidMove`
although its value is neither drawTwo nor wildDrawFour — the claimed
"legal iff the value is drawTwo or wildDrawFour" fails. -/
theorem isValidMove_penalty_wild_legal :
    isValidMove ⟨none, Value.wild, 100⟩ ⟨some Color.red, Value.drawTwo, 23⟩
        Color.red (decide (0 < 1)) = true ∧
      (⟨none, Value.wild, 100⟩ : Card).value ≠ Value.drawTwo ∧
      (⟨none, Value.wild, 100⟩ : Card).value ≠ Value.wildDrawFour := by
  decide

/-- C2 (amended): during a pending draw stack with a drawTwo/wildDrawFour
top card, `isValidMove` deems a card legal iff it is colorless (wild
family) or its value is drawTwo or wildDrawFour; color and number matching
are bypassed in this phase. -/
theorem isValidMove_penalty_phase (card topCard : Card) (cc : Color) (ds : Nat)
    (hds : 0 < ds)
    (ht : topCard.value = Value.drawTwo ∨ topCard.value = Value.wildDrawFour) :
    (isValidMove card topCard cc (decide (0 < ds)) = true ↔
      (card.color = none ∨ card.value = Value.drawTwo ∨
        card.value = Value.wildDrawFour)) := by
  have hb : decide (0 < ds) = true := by simpa using hds
  unfold isValidMove
  rcases ht with h | h <;> by_cases hc : card.color = none <;>
    simp [h, hc, hb]

/-- C2 witness: a red drawTwo answering a blue drawTwo under a stack of 2. -/
theorem isValidMove_penalty_phase_witness :
    isValidMove ⟨some Color.red, Value.drawTwo, 23⟩ ⟨some Color.blue, Value.drawTwo, 48⟩
        Color.green (decide (0 < 2)) = true ↔
      ((⟨some Color.red, Value.drawTwo, 23⟩ : Card).color = none ∨
        (⟨some Color.red, Value.drawTwo, 23⟩ : Card).value = Value.drawTwo ∨
        (⟨some Color.red, Value.drawTwo, 23⟩ : Card).value = Value.wildDrawFour) :=
  isValidMove_penalty_phase ⟨some Color.red, Value.drawTwo, 23⟩
    ⟨some Color.blue, Value.drawTwo, 48⟩ Color.green 2 (by decide) (Or.inl rfl)

-- ----------------------------------------------------------------------
-- C9: reshuffle correctness of ensureDeck
-- ----------------------------------------------------------------------

theorem ensureDP_refill {sh : List Card → List Card} {pile : List Card}
    (top : Card) (rest : List Card) (hpop : popCard pile = (some top, rest))
    (hp : 1 < pile.length) :
    ensureDP sh ([], pile) = ((sh rest).map clearWildColor, [top]) := by
  unfold ensureDP
  simp [hpop, hp]

theorem ensureDP_noRefill {sh : List Card → List Card} {pile : List Card}
    (hp : pile.length ≤ 1) : ensureDP sh ([], pile) = ([], pile) := by
  unfold ensureDP
  have hnlt : ¬ 1 < pile.length := by omega
  simp only [List.length_nil, eq_self_iff_true, if_true, if_neg hnlt]

theorem ensureDP_deckNonempty {sh : List Card → List Card}
    {deck pile : List Card} (hd : deck ≠ []) :
    ensureDP sh (deck, pile) = (deck, pile) := by
  unfold ensureDP
  simp [(by simpa [List.length_eq_zero] using hd : ¬ deck.length = 0)]

theorem clearWildColor_clears (c : Card)
    (h : (clearWildColor c).value = Value.wild ∨
      (clearWildColor c).value = Value.wildDrawFour) :
    (clearWildColor c).color = none := by
  unfold clearWildColor at h ⊢
  by_cases hb : (c.value == Value.wild || c.value == Value.wildDrawFour) = true
  · simp [hb]
  · simp only [hb, if_neg, Bool.not_eq_true] at h ⊢
    simp at hb
    rcases h with h | h <;> simp [h] at hb

/-- C9: if the deck is empty and the discard pile holds more than one card,
`ensureDeck` leaves exactly the previous top card as the discard pile,
makes the new deck exactly (as a multiset of identifiers) the previous
discard pile minus that top card, and strips the color of every
wild-family card in the new deck; with at most one discard (or a nonempty
deck) the state is unchanged. -/
theorem ensureDeck_spec (sh : List Card → List Card) (s : GameState)
    (hsh : IsShuffle sh) :
    (s.deck = [] → 1 < s.discardPile.length →
      (ensureDeck sh s).discardPile = [s.discardPile.getLastD defaultCard] ∧
      idsOf (ensureDeck sh s).deck = idsOf s.discardPile.dropLast ∧
      (∀ c ∈ (ensureDeck sh s).deck,
        (c.value = Value.wild ∨ c.value = Value.wildDrawFour) → c.color = none)) ∧
    (s.deck = [] → s.discardPile.length ≤ 1 → ensureDeck sh s = s) ∧
    (s.deck ≠ [] → ensureDeck sh s = s) := by
  refine ⟨?_, ?_, ?_⟩
  · intro hd hp
    have hne : s.discardPile ≠ [] := by
      intro h; rw [h] at hp; simp at hp
    have hlast : s.discardPile.getLast? = some (s.discardPile.getLastD defaultCard) := by
      cases hq : s.discardPile.getLast? with
      | none => exact absurd (List.getLast?_eq_none_iff.mp hq) hne
      | some t => simp [List.getLastD_eq_getLast?, hq]
    have hpop : popCard s.discardPile =
        (some (s.discardPile.getLastD defaultCard), s.discardPile.dropLast) := by
      rw [popCard, hlast]
    have hdp : ensureDP sh (s.deck, s.discardPile) =
        ((sh s.discardPile.dropLast).map clearWildColor,
          [s.discardPile.getLastD defaultCard]) := by
      rw [hd]
      exact ensureDP_refill _ _ hpop hp
    have hdeck : (ensureDeck sh s).deck =
        (sh s.discardPile.dropLast).map clearWildColor := by
      unfold ensureDeck; rw [hdp]
    have hpile : (ensureDeck sh s).discardPile =
        [s.discardPile.getLastD defaultCard] := by
      unfold ensureDeck; rw [hdp]
    refine ⟨hpile, ?_, ?_⟩
    · rw [hdeck, idsOf_map_clearWild, idsOf_perm (hsh s.discardPile.dropLast)]
    · intro c hc hval
      rw [hdeck] at hc
      obtain ⟨c0, _, rfl⟩ := List.mem_map.mp hc
      exact clearWildColor_clears c0 hval
  · intro hd hp
    have hdp : ensureDP sh (s.deck, s.discardPile) = (s.deck, s.discardPile) := by
      rw [hd]
      exact ensureDP_noRefill hp
    unfold ensureDeck
    rw [hdp]
  · intro hd
    have hdp : ensureDP sh (s.deck, s.discardPile) = (s.deck, s.discardPile) :=
      ensureDP_deckNonempty hd
    unfold ensureDeck
    rw [hdp]

/-- C9 witness: an empty deck with a two-card discard pile, the buried card
being a green-bound wild that must come back colorless. -/
def c9State : GameState :=
  ⟨[], [⟨some Color.green, Value.wild, 100⟩, ⟨some Color.red, Value.num 5, 5⟩],
    [⟨"a", [⟨some Color.blue, Value.num 1, 1⟩], false⟩], 0, 1, Color.red,
    none, none, none, 0, []⟩

theorem ensureDeck_spec_witness :
    (ensureDeck idShuffle c9State).discardPile =
        [c9State.discardPile.getLastD defaultCard] ∧
      idsOf (ensureDeck idShuffle c9State).deck = idsOf c9State.discardPile.dropLast ∧
      (∀ c ∈ (ensureDeck idShuffle c9State).deck,
        (c.value = Value.wild ∨ c.value = Value.wildDrawFour) → c.color = none) :=
  (ensureDeck_spec idShuffle c9State isShuffle_id).1 rfl (by decide)

-- ----------------------------------------------------------------------
-- C10: voluntary draw with nothing to draw is rejected without mutation
-- ----------------------------------------------------------------------

/-- C10: with no pending draw stack, no held drawn card, an empty deck and
at most one discard, `drawCard` signals InvalidAction and the state at the
throw is the original state (no silent no-op, no crash). -/
theorem drawCard_exhausted_rejects (sh : List Card → List Card) (pid : String)
    (s : GameState) (h1 : s.drawStack = 0) (h2 : s.drawnCard = none)
    (h3 : s.deck = []) (h4 : s.discardPile.length ≤ 1) :
    drawCardE sh pid s = Except.error s := by
  have hdp : ensureDP sh (s.deck, s.discardPile) = (s.deck, s.discardPile) := by
    rw [h3]
    exact ensureDP_noRefill h4
  have hens : ensureDeck sh s = s := by
    unfold ensureDeck
    rw [hdp]
  unfold drawCardE
  cases hf : findIdxA (fun p => p.id == pid) s.players with
  | none => rfl
  | some pi' =>
    by_cases hc : s.currentPlayerIndex ≠ pi'
    · simp [hc]
    · simp [hc, h1, h2, hens, h3, popCard]

def c10State : GameState :=
  ⟨[], [⟨some Color.red, Value.num 5, 5⟩],
    [⟨"a", [⟨some Color.blue, Value.num 1, 1⟩], false⟩], 0, 1, Color.red,
    none, none, none, 0, []⟩

theorem drawCard_exhausted_rejects_witness :
    drawCardE idShuffle "a" c10State = Except.error c10State :=
  drawCard_exhausted_rejects idShuffle "a" c10State rfl rfl rfl (by decide)

-- ----------------------------------------------------------------------
-- C8: rejection atomicity
-- ----------------------------------------------------------------------

theorem ensureDeck_deck_nil {sh : List Card → List Card} {s : GameState}
    (hsh : IsShuffle sh) (h : (ensureDeck sh s).deck = []) :
    ensureDeck sh s = s := by
  by_cases hd : s.deck = []
  · by_cases hp : 1 < s.discardPile.length
    · exfalso
      have hne : s.discardPile ≠ [] := by
        intro hh; rw [hh] at hp; simp at hp
      obtain ⟨top, htop⟩ : ∃ t, s.discardPile.getLast? = some t := by
        cases hq : s.discardPile.getLast? with
        | none => exact absurd (List.getLast?_eq_none_iff.mp hq) hne
        | some t => exact ⟨t, rfl⟩
      have hpop : popCard s.discardPile = (some top, s.discardPile.dropLast) := by
        rw [popCard, htop]
      have hdp := @ensureDP_refill sh _ _ _ hpop hp
      have hdeck : (ensureDeck sh s).deck =
          (sh s.discardPile.dropLast).map clearWildColor := by
        unfold ensureDeck; rw [hd, hdp]
      rw [hdeck] at h
      have hlen := (hsh s.discardPile.dropLast).length_eq
      have hml : ((sh s.discardPile.dropLast).map clearWildColor).length = 0 := by
        rw [h]; rfl
      simp only [List.length_map] at hml
      rw [hml] at hlen
      have : s.discardPile.dropLast.length = s.discardPile.length - 1 := by
        simp [List.length_dropLast]
      omega
    · have hdp : ensureDP sh (s.deck, s.discardPile) = (s.deck, s.discardPile) := by
        rw [hd]; exact ensureDP_noRefill (by omega)
      unfold ensureDeck
      rw [hdp]
  · have hdp : ensureDP sh (s.deck, s.discardPile) = (s.deck, s.discardPile) :=
      ensureDP_deckNonempty hd
    unfold ensureDeck
    rw [hdp]

theorem playCardE_error_eq {sh : List Card → List Card} {pid : String}
    {cid : Nat} {col : Option Color} {s e : GameState}
    (h : playCardE sh pid cid col s = Except.error e) : e = s := by
  unfold playCardE at h
  cases hv : playValidate pid cid col s with
  | none => rw [hv] at h; injection h with h'; exact h'.symm
  | some t =>
    obtain ⟨pi', card, pd⟩ := t
    rw [hv] at h
    by_cases hw : (getPlayer (playPlace pid pi' cid card pd col s).players pi').hand.length = 0
    · simp only [hw, if_pos, if_true, eq_self_iff_true] at h
      exact absurd h (by simp)
    · simp only [if_neg hw] at h
      exact absurd h (by simp)

theorem drawCardE_error_eq {sh : List Card → List Card} {pid : String}
    {s e : GameState} (hsh : IsShuffle sh)
    (h : drawCardE sh pid s = Except.error e) : e = s := by
  unfold drawCardE at h
  cases hf : findIdxA (fun p => p.id == pid) s.players with
  | none => rw [hf] at h; injection h with h'; exact h'.symm
  | some pi' =>
    rw [hf] at h
    by_cases hc : s.currentPlayerIndex ≠ pi'
    · simp only [if_pos hc] at h; injection h with h'; exact h'.symm
    · simp only [if_neg hc] at h
      by_cases hds : 0 < s.drawStack
      · simp only [if_pos hds] at h
        exact absurd h (by simp)
      · simp only [if_neg hds] at h
        by_cases hdc : s.drawnCard.isSome = true
        · simp only [if_pos hdc] at h; injection h with h'; exact h'.symm
        · simp only [if_neg hdc] at h
          cases hp : popCard (ensureDeck sh s).deck with
          | mk oc d' =>
            cases oc with
            | none =>
              rw [hp] at h
              injection h with h'
              have hnil : (ensureDeck sh s).deck = [] := (popCard_none hp).1
              rw [← h', ensureDeck_deck_nil hsh hnil]
            | some c =>
              rw [hp] at h
              exact absurd h (by simp)

theorem passTurnE_error_eq {pid : String} {s e : GameState}
    (h : passTurnE pid s = Except.error e) : e = s := by
  unfold passTurnE at h
  cases hf : findIdxA (fun p => p.id == pid) s.players with
  | none => rw [hf] at h; injection h with h'; exact h'.symm
  | some pi' =>
    rw [hf] at h
    by_cases hc : s.currentPlayerIndex ≠ pi'
    · simp only [if_pos hc] at h; injection h with h'; exact h'.symm
    · simp only [if_neg hc] at h
      cases hdc : s.drawnCard with
      | none => rw [hdc] at h; injection h with h'; exact h'.symm
      | some dc =>
        rw [hdc] at h
        by_cases hds : 0 < s.drawStack
        · simp only [if_pos hds] at h; injection h with h'; exact h'.symm
        · simp only [if_neg hds] at h
          exact absurd h (by simp)

theorem callUnoE_error_eq {pid : String} {s e : GameState}
    (h : callUnoE pid s = Except.error e) : e = s := by
  unfold callUnoE at h
  cases hf : findIdxA (fun p => p.id == pid) s.players with
  | none => rw [hf] at h; injection h with h'; exact h'.symm
  | some i =>
    rw [hf] at h
    by_cases hc : s.currentPlayerIndex = i
    · simp only [if_pos hc] at h
      by_cases hh : 2 < (getPlayer s.players i).hand.length
      · simp only [if_pos hh] at h; injection h with h'; exact h'.symm
      · simp only [if_neg hh] at h
        exact absurd h (by simp)
    · simp only [if_neg hc] at h; injection h with h'; exact h'.symm

/-- C8: whenever any of the four actions signals InvalidAction, the state
at the moment of the throw is exactly the pre-action state — every
precondition fault fires before any mutation. -/
theorem actions_reject_atomically (sh : List Card → List Card) (pid : String)
    (cid : Nat) (col : Option Color) (s : GameState) (hsh : IsShuffle sh) :
    (∀ e, playCardE sh pid cid col s = Except.error e → e = s) ∧
    (∀ e, drawCardE sh pid s = Except.error e → e = s) ∧
    (∀ e, passTurnE pid s = Except.error e → e = s) ∧
    (∀ e, callUnoE pid s = Except.error e → e = s) :=
  ⟨fun _ h => playCardE_error_eq h, fun _ h => drawCardE_error_eq hsh h,
   fun _ h => passTurnE_error_eq h, fun _ h => callUnoE_error_eq h⟩

def c8State : GameState :=
  ⟨[], [⟨some Color.red, Value.num 5, 5⟩], [⟨"a", [], false⟩], 0, 1, Color.red,
    none, none, none, 0, []⟩

/-- C8 witness: a `playCard` by an unknown player is rejected with the
state unchanged. -/
theorem actions_reject_atomically_witness : c8State = c8State :=
  (actions_reject_atomically idShuffle "z" 0 none c8State isShuffle_id).1
    c8State rfl

-- ----------------------------------------------------------------------
-- List update helpers
-- ----------------------------------------------------------------------

theorem getD_set_ne {α : Type} (l : List α) (i j : Nat) (a d : α) (h : i ≠ j) :
    (l.set i a).getD j d = l.getD j d := by
  induction l generalizing i j with
  | nil => simp
  | cons x xs ih =>
    cases i with
    | zero =>
      cases j with
      | zero => exact absurd rfl h
      | succ jj => simp
    | succ ii =>
      cases j with
      | zero => simp
      | succ jj => simpa using ih ii jj (by omega)

theorem getD_set_self {α : Type} (l : List α) (i : Nat) (a d : α)
    (h : i < l.length) : (l.set i a).getD i d = a := by
  induction l generalizing i with
  | nil => simp at h
  | cons x xs ih =>
    cases i with
    | zero => simp
    | succ ii => simpa using ih ii (by simpa using h)

theorem getPlayer_set_ne (ps : List PlayerState) (i j : Nat) (q : PlayerState)
    (h : i ≠ j) : getPlayer (ps.set i q) j = getPlayer ps j :=
  getD_set_ne ps i j q defaultPlayer h

theorem getPlayer_set_self (ps : List PlayerState) (i : Nat) (q : PlayerState)
    (h : i < ps.length) : getPlayer (ps.set i q) i = q :=
  getD_set_self ps i q defaultPlayer h

-- ----------------------------------------------------------------------
-- playCard stage lemmas
-- ----------------------------------------------------------------------

theorem playResolveCard_spec {p : PlayerState} {drawn : Option Card}
    {cid : Nat} {card : Card} {pd : Bool}
    (h : playResolveCard p drawn cid = some (card, pd)) :
    (pd = true → drawn = some card ∧
      findIdxA (fun c => c.id == cid) p.hand = none) ∧
    (pd = false → ∃ ci,
      findIdxA (fun c => c.id == cid) p.hand = some ci ∧
      card = p.hand.getD ci defaultCard) := by
  unfold playResolveCard at h
  split at h
  case h_1 ci heq =>
    simp only [Option.some.injEq, Prod.mk.injEq] at h
    obtain ⟨h1, h2⟩ := h
    subst h2
    exact ⟨fun hq => absurd hq (by simp), fun _ => ⟨ci, heq, h1.symm⟩⟩
  case h_2 heq =>
    split at h
    case h_1 dc =>
      split at h
      case isTrue hid =>
        simp only [Option.some.injEq, Prod.mk.injEq] at h
        obtain ⟨h1, h2⟩ := h
        subst h2
        exact ⟨fun _ => ⟨by rw [h1], heq⟩, fun hq => absurd hq (by simp)⟩
      case isFalse hid => exact absurd h (by simp)
    case h_2 => exact absurd h (by simp)

theorem playValidate_some {pid : String} {cid : Nat} {col : Option Color}
    {s : GameState} {pi' : Nat} {card : Card} {pd : Bool}
    (h : playValidate pid cid col s = some (pi', card, pd)) :
    findIdxA (fun p => p.id == pid) s.players = some pi' ∧
    s.currentPlayerIndex = pi' ∧
    (pd = true → s.drawnCard = some card ∧
      findIdxA (fun c => c.id == cid) (getPlayer s.players pi').hand = none) ∧
    (pd = false → ∃ ci,
      findIdxA (fun c => c.id == cid) (getPlayer s.players pi').hand = some ci ∧
      card = (getPlayer s.players pi').hand.getD ci defaultCard) := by
  unfold playValidate at h
  split at h
  case h_1 => exact absurd h (by simp)
  case h_2 pidx hf =>
    split at h
    · exact absurd h (by simp)
    next hc =>
      push_neg at hc
      split at h
      case h_1 => exact absurd h (by simp)
      case h_2 c0 pd0 hr =>
        split at h
        · exact absurd h (by simp)
        · split at h
          · exact absurd h (by simp)
          · simp only [Option.some.injEq, Prod.mk.injEq] at h
            obtain ⟨hA, hB, hC⟩ := h
            subst hA; subst hB; subst hC
            exact ⟨hf, hc, (playResolveCard_spec hr).1, (playResolveCard_spec hr).2⟩

theorem playPlace_frame (pid : String) (pi' cid : Nat) (card : Card) (pd : Bool)
    (col : Option Color) (s : GameState) :
    (playPlace pid pi' cid card pd col s).deck = s.deck ∧
    (playPlace pid pi' cid card pd col s).currentPlayerIndex = s.currentPlayerIndex ∧
    (playPlace pid pi' cid card pd col s).direction = s.direction ∧
    (playPlace pid pi' cid card pd col s).drawStack = s.drawStack ∧
    (playPlace pid pi' cid card pd col s).playerCache = s.playerCache ∧
    (playPlace pid pi' cid card pd col s).winner = s.winner ∧
    (playPlace pid pi' cid card pd col s).discardPile = s.discardPile ++ [card] := by
  cases pd <;> simp [playPlace]

theorem playPlace_players_pd_true (pid : String) (pi' cid : Nat) (card : Card)
    (col : Option Color) (s : GameState) :
    (playPlace pid pi' cid card true col s).players = s.players := by
  simp [playPlace]

theorem playPlace_players_pd_false (pid : String) (pi' cid : Nat) (card : Card)
    (col : Option Color) (s : GameState) :
    (playPlace pid pi' cid card false col s).players =
      s.players.set pi'
        { getPlayer s.players pi' with
            hand := (getPlayer s.players pi').hand.eraseIdx
              ((findIdxA (fun c => c.id == cid)
                  (getPlayer s.players pi').hand).getD 0) } := by
  simp [playPlace]

theorem playPlace_drawnCard_pd_true (pid : String) (pi' cid : Nat) (card : Card)
    (col : Option Color) (s : GameState) :
    (playPlace pid pi' cid card true col s).drawnCard = none := by
  simp [playPlace]

theorem playPlace_drawnCard_pd_false (pid : String) (pi' cid : Nat) (card : Card)
    (col : Option Color) (s : GameState) :
    (playPlace pid pi' cid card false col s).drawnCard = s.drawnCard := by
  simp [playPlace]

/-- An accepted `playCard` is either the early winner return or the full
post-play pipeline ending in the drawn-card clear. -/
theorem playCardE_ok_elim {sh : List Card → List Card} {pid : String}
    {cid : Nat} {col : Option Color} {s s' : GameState} {pi' : Nat}
    {card : Card} {pd : Bool}
    (hv : playValidate pid cid col s = some (pi', card, pd))
    (hrun : playCardE sh pid cid col s = Except.ok s') :
    ((getPlayer (playPlace pid pi' cid card pd col s).players pi').hand.length = 0 ∧
      s' = { playPlace pid pi' cid card pd col s with winner := some pid }) ∨
    ((getPlayer (playPlace pid pi' cid card pd col s).players pi').hand.length ≠ 0 ∧
      s' = { playResolveStack sh (playEffects card (playClearUno pi'
              (playPenalty sh pi' (playPlace pid pi' cid card pd col s)))) with
            drawnCard := none }) := by
  unfold playCardE at hrun
  split at hrun
  · exact absurd hrun (by simp)
  next pi2 card2 pd2 hv2 =>
    rw [hv] at hv2
    simp only [Option.some.injEq, Prod.mk.injEq] at hv2
    obtain ⟨hA, hB, hC⟩ := hv2
    subst hA; subst hB; subst hC
    by_cases hw :
        (getPlayer (playPlace pid pi' cid card pd col s).players pi').hand.length = 0
    · rw [if_pos hw] at hrun
      injection hrun with h'
      exact Or.inl ⟨hw, h'.symm⟩
    · rw [if_neg hw] at hrun
      injection hrun with h'
      exact Or.inr ⟨hw, h'.symm⟩

def exceptOkD : Except GameState GameState → GameState
  | Except.ok s => s
  | Except.error s => s

def isOkE : Except GameState GameState → Bool
  | Except.ok _ => true
  | Except.error _ => false

-- ----------------------------------------------------------------------
-- C4: a winning play has no further side effects
-- ----------------------------------------------------------------------

/-- C4: an accepted `playCard` whose card removal empties the acting
player's hand records that player as winner and — besides the card moving
to the discard pile, the active color and the last-action text — leaves the
current player index, direction, draw stack, deck, player cache and every
other player's state unchanged: no skip/reverse/draw-stack effect and no
catch-penalty is applied. -/
theorem playCard_winning_frame (sh : List Card → List Card) (pid : String)
    (cid : Nat) (col : Option Color) (s s' : GameState) (pi' : Nat)
    (card : Card) (pd : Bool)
    (hv : playValidate pid cid col s = some (pi', card, pd))
    (hrun : playCardE sh pid cid col s = Except.ok s')
    (hwin : (getPlayer (playPlace pid pi' cid card pd col s).players pi').hand = []) :
    s'.winner = some pid ∧
    s'.deck = s.deck ∧
    s'.currentPlayerIndex = s.currentPlayerIndex ∧
    s'.direction = s.direction ∧
    s'.drawStack = s.drawStack ∧
    s'.playerCache = s.playerCache ∧
    s'.discardPile = s.discardPile ++ [card] ∧
    s'.players.length = s.players.length ∧
    (∀ j, j ≠ pi' → getPlayer s'.players j = getPlayer s.players j) ∧
    (getPlayer s'.players pi').hand = [] ∧
    (getPlayer s'.players pi').hasCalledUno = (getPlayer s.players pi').hasCalledUno := by
  have hs' : s' = { playPlace pid pi' cid card pd col s with winner := some pid } := by
    rcases playCardE_ok_elim hv hrun with ⟨_, hs⟩ | ⟨hw, _⟩
    · exact hs
    · exact absurd (by rw [hwin]; rfl) hw
  subst hs'
  obtain ⟨f1, f2, f3, f4, f5, _, f7⟩ := playPlace_frame pid pi' cid card pd col s
  have hlt : pi' < s.players.length := findIdxA_lt (playValidate_some hv).1
  refine ⟨rfl, f1, f2, f3, f4, f5, f7, ?_, ?_, ?_, ?_⟩
  · cases pd
    · rw [playPlace_players_pd_false]; simp
    · rw [playPlace_players_pd_true]
  · intro j hj
    cases pd
    · show getPlayer (playPlace pid pi' cid card false col s).players j = _
      rw [playPlace_players_pd_false]
      exact getPlayer_set_ne _ _ _ _ (fun hq => hj hq.symm)
    · show getPlayer (playPlace pid pi' cid card true col s).players j = _
      rw [playPlace_players_pd_true]
  · exact hwin
  · cases pd
    · show (getPlayer (playPlace pid pi' cid card false col s).players pi').hasCalledUno = _
      rw [playPlace_players_pd_false, getPlayer_set_self _ _ _ hlt]
    · show (getPlayer (playPlace pid pi' cid card true col s).players pi').hasCalledUno = _
      rw [playPlace_players_pd_true]

/-- Spec scenario for C4: hand `[red-5]`, played on a blue-5 top card with
active color blue; ids follow the canonical deck (red-5 is id 9, blue-5 is
id 34). -/
def c4wState : GameState :=
  ⟨[⟨some Color.green, Value.num 2, 54⟩], [⟨some Color.blue, Value.num 5, 34⟩],
   [⟨"a", [⟨some Color.red, Value.num 5, 9⟩], false⟩,
    ⟨"b", [⟨some Color.yellow, Value.num 3, 81⟩], false⟩],
   0, 1, Color.blue, none, none, none, 0, []⟩

theorem playCard_winning_frame_witness :
    (exceptOkD (playCardE idShuffle "a" 9 none c4wState)).winner = some "a" :=
  (playCard_winning_frame idShuffle "a" 9 none c4wState
      (exceptOkD (playCardE idShuffle "a" 9 none c4wState)) 0
      ⟨some Color.red, Value.num 5, 9⟩ false rfl rfl rfl).1

-- ----------------------------------------------------------------------
-- C7: clearing of the held drawn card
-- ----------------------------------------------------------------------

/-- C7 (counterexample): player "a" holds `[red-5]` plus a separately drawn
blue-7; playing the red-5 from the hand empties it, the winner branch
returns early, and the held drawn card is still present — it is *not*
cleared on this accepted transition. -/
def c7State : GameState :=
  ⟨[⟨some Color.green, Value.num 2, 54⟩], [⟨some Color.blue, Value.num 5, 34⟩],
   [⟨"a", [⟨some Color.red, Value.num 5, 9⟩], true⟩,
    ⟨"b", [⟨some Color.yellow, Value.num 3, 81⟩], false⟩],
   0, 1, Color.blue, none, some ⟨some Color.blue, Value.num 7, 38⟩, none, 0, []⟩

theorem playCard_win_keeps_drawnCard :
    isOkE (playCardE idShuffle "a" 9 none c7State) = true ∧
    (exceptOkD (playCardE idShuffle "a" 9 none c7State)).drawnCard =
      some ⟨some Color.blue, Value.num 7, 38⟩ := by
  constructor <;> rfl

/-- C7 (amended): every accepted `playCard` ends with the held-drawn-card
slot empty, except a game-ending play of a card taken from the hand: the
early winner return skips the final clearing, so a drawn card held at that
moment stays. (When the played card is the drawn card itself the slot is
cleared even on the winning branch.) -/
theorem playCard_clears_drawnCard (sh : List Card → List Card) (pid : String)
    (cid : Nat) (col : Option Color) (s s' : GameState) (pi' : Nat)
    (card : Card) (pd : Bool)
    (hv : playValidate pid cid col s = some (pi', card, pd))
    (hrun : playCardE sh pid cid col s = Except.ok s')
    (h : (getPlayer (playPlace pid pi' cid card pd col s).players pi').hand ≠ [] ∨
      pd = true) :
    s'.drawnCard = none := by
  rcases playCardE_ok_elim hv hrun with ⟨hw, hs⟩ | ⟨_, hs⟩
  · have hnil : (getPlayer (playPlace pid pi' cid card pd col s).players pi').hand = [] :=
      List.length_eq_zero.mp hw
    have hpd : pd = true := by
      rcases h with h | h
      · exact absurd hnil h
      · exact h
    subst hpd
    subst hs
    show (playPlace pid pi' cid card true col s).drawnCard = none
    exact playPlace_drawnCard_pd_true pid pi' cid card col s
  · subst hs
    rfl

/-- C7 witness: a non-winning accepted play (hand goes from two cards to
one) ends with the drawn-card slot empty. -/
def c7wState : GameState :=
  ⟨[⟨some Color.green, Value.num 2, 54⟩, ⟨some Color.green, Value.num 1, 52⟩],
   [⟨some Color.blue, Value.num 5, 34⟩],
   [⟨"a", [⟨some Color.red, Value.num 5, 9⟩, ⟨some Color.red, Value.num 3, 5⟩], true⟩,
    ⟨"b", [⟨some Color.yellow, Value.num 3, 81⟩], false⟩],
   0, 1, Color.blue, none, some ⟨some Color.blue, Value.num 7, 38⟩, none, 0, []⟩

theorem playCard_clears_drawnCard_witness :
    (exceptOkD (playCardE idShuffle "a" 9 none c7wState)).drawnCard = none :=
  playCard_clears_drawnCard idShuffle "a" 9 none c7wState
    (exceptOkD (playCardE idShuffle "a" 9 none c7wState)) 0
    ⟨some Color.red, Value.num 5, 9⟩ false rfl rfl
    (Or.inl (by decide))

-- ----------------------------------------------------------------------
-- Draw-loop lemmas
-- ----------------------------------------------------------------------

theorem getLast?_getLastD {l : List Card} (h : l ≠ []) :
    l.getLast? = some (l.getLastD defaultCard) := by
  cases hq : l.getLast? with
  | none => exact absurd (List.getLast?_eq_none_iff.mp hq) h
  | some t => simp [List.getLastD_eq_getLast?, hq]

theorem popCard_of_ne_nil {l : List Card} (h : l ≠ []) :
    popCard l = (some (l.getLastD defaultCard), l.dropLast) := by
  rw [popCard, getLast?_getLastD h]

theorem ensureDP_cases (sh : List Card → List Card) (d p : List Card) :
    ensureDP sh (d, p) = (d, p) ∨
    (d = [] ∧ 1 < p.length ∧
      ensureDP sh (d, p) =
        ((sh p.dropLast).map clearWildColor, [p.getLastD defaultCard])) := by
  by_cases hd : d = []
  · by_cases hp : 1 < p.length
    · right
      refine ⟨hd, hp, ?_⟩
      subst hd
      have hne : p ≠ [] := by intro hh; rw [hh] at hp; simp at hp
      exact ensureDP_refill _ _ (popCard_of_ne_nil hne) hp
    · left
      subst hd
      exact ensureDP_noRefill (by omega)
  · left
    exact ensureDP_deckNonempty hd

theorem ensureDP_len {sh : List Card → List Card} (hsh : IsShuffle sh)
    (d p : List Card) :
    (ensureDP sh (d, p)).1.length + (ensureDP sh (d, p)).2.length =
      d.length + p.length := by
  rcases ensureDP_cases sh d p with h | ⟨hd, hp, h⟩
  · rw [h]
  · rw [h]
    subst hd
    simp only [List.length_map, List.length_cons, List.length_nil]
    rw [(hsh p.dropLast).length_eq]
    simp only [List.length_dropLast]
    omega

theorem ensureDP_pile_ne (sh : List Card → List Card) (d p : List Card)
    (hp : p ≠ []) : (ensureDP sh (d, p)).2 ≠ [] := by
  rcases ensureDP_cases sh d p with h | ⟨_, _, h⟩
  · rw [h]; exact hp
  · rw [h]; simp

theorem ensureDP_ids {sh : List Card → List Card} (hsh : IsShuffle sh)
    (d p : List Card) :
    idsOf (ensureDP sh (d, p)).1 + idsOf (ensureDP sh (d, p)).2 =
      idsOf d + idsOf p := by
  rcases ensureDP_cases sh d p with h | ⟨hd, hp, h⟩
  · rw [h]
  · rw [h]
    subst hd
    have hne : p ≠ [] := by intro hh; rw [hh] at hp; simp at hp
    have hsplit : p = p.dropLast ++ [p.getLastD defaultCard] :=
      popCard_some (popCard_of_ne_nil hne)
    rw [idsOf_map_clearWild, idsOf_perm (hsh p.dropLast)]
    conv_rhs => rw [hsplit]
    rw [idsOf_append, idsOf_nil]
    simp

theorem drawN_succ_none {sh : List Card → List Card} {n : Nat}
    {d p d2 : List Card} (hpop : popCard (ensureDP sh (d, p)).1 = (none, d2)) :
    drawN sh (n + 1) (d, p) = drawN sh n (d2, (ensureDP sh (d, p)).2) := by
  conv_lhs => rw [drawN]
  rw [hpop]

theorem drawN_succ_some {sh : List Card → List Card} {n : Nat}
    {d p d2 : List Card} {c : Card}
    (hpop : popCard (ensureDP sh (d, p)).1 = (some c, d2)) :
    drawN sh (n + 1) (d, p) =
      ((drawN sh n (d2, (ensureDP sh (d, p)).2)).1,
       (drawN sh n (d2, (ensureDP sh (d, p)).2)).2.1,
       c :: (drawN sh n (d2, (ensureDP sh (d, p)).2)).2.2) := by
  conv_lhs => rw [drawN]
  rw [hpop]

/-- Number of cards actually delivered by the draw loop: everything asked
for, capped by the deck plus the recyclable discard (all of the pile except
its protected top card). -/
theorem drawN_drawn_len {sh : List Card → List Card} (hsh : IsShuffle sh) :
    ∀ (n : Nat) (d p : List Card), p ≠ [] →
      (drawN sh n (d, p)).2.2.length = min n (d.length + p.length - 1) := by
  intro n
  induction n with
  | zero => intro d p _; simp [drawN]
  | succ n ih =>
    intro d p hp
    by_cases hd : d = []
    · subst hd
      by_cases hlen : 1 < p.length
      · have hne : p ≠ [] := hp
        have hdp := @ensureDP_refill sh _ _ _ (popCard_of_ne_nil hne) hlen
        have hnd : (ensureDP sh (([] : List Card), p)).1 ≠ [] := by
          rw [hdp]
          intro hq
          have := congrArg List.length hq
          simp only [List.length_map, List.length_nil] at this
          rw [(hsh p.dropLast).length_eq] at this
          simp only [List.length_dropLast] at this
          omega
        have hpop := popCard_of_ne_nil hnd
        rw [drawN_succ_some hpop]
        simp only [List.length_cons]
        have hrec := ih (ensureDP sh (([] : List Card), p)).1.dropLast
          (ensureDP sh (([] : List Card), p)).2
          (ensureDP_pile_ne sh _ _ hp)
        rw [hrec]
        have hlen1 : (ensureDP sh (([] : List Card), p)).1.length = p.length - 1 := by
          rw [hdp]
          simp only [List.length_map]
          rw [(hsh p.dropLast).length_eq]
          simp [List.length_dropLast]
        have hlen2 : (ensureDP sh (([] : List Card), p)).2.length = 1 := by
          rw [hdp]
          rfl
        have hlen3 : (ensureDP sh (([] : List Card), p)).1.dropLast.length =
            (ensureDP sh (([] : List Card), p)).1.length - 1 := by
          simp [List.length_dropLast]
        have hnil : ([] : List Card).length = 0 := rfl
        omega
      · have hp1 : p.length = 1 := by
          have : 0 < p.length := List.length_pos.mpr hp
          omega
        have hdp : ensureDP sh (([] : List Card), p) = ([], p) :=
          ensureDP_noRefill (by omega)
        have hpop : popCard (ensureDP sh (([] : List Card), p)).1 = (none, []) := by
          rw [hdp]
          rfl
        rw [drawN_succ_none hpop, hdp]
        rw [ih [] p hp]
        have hnil : ([] : List Card).length = 0 := rfl
        omega
    · have hdp : ensureDP sh (d, p) = (d, p) := ensureDP_deckNonempty hd
      have hpop : popCard (ensureDP sh (d, p)).1 =
          (some (d.getLastD defaultCard), d.dropLast) := by
        rw [hdp]
        exact popCard_of_ne_nil hd
      rw [drawN_succ_some hpop]
      simp only [List.length_cons]
      rw [hdp]
      rw [ih d.dropLast p hp]
      have h1 : 0 < d.length := List.length_pos.mpr hd
      have h2 : d.dropLast.length = d.length - 1 := by simp [List.length_dropLast]
      have h3 : 0 < p.length := List.length_pos.mpr hp
      omega

theorem drawN_pile_ne {sh : List Card → List Card} :
    ∀ (n : Nat) (d p : List Card), p ≠ [] → (drawN sh n (d, p)).2.1 ≠ [] := by
  intro n
  induction n with
  | zero => intro d p hp; simpa [drawN] using hp
  | succ n ih =>
    intro d p hp
    have hne := ensureDP_pile_ne sh d p hp
    cases hpop : popCard (ensureDP sh (d, p)).1 with
    | mk oc d2 =>
      cases oc with
      | none => rw [drawN_succ_none hpop]; exact ih _ _ hne
      | some c => rw [drawN_succ_some hpop]; exact ih _ _ hne

theorem ms_rearrange {A B C D P : Multiset Nat} {x : Nat}
    (h1 : A + B + C = D) (h2 : D + {x} = P) :
    A + B + (x ::ₘ C) = P := by
  rw [← h2, ← h1, ← Multiset.singleton_add]
  abel

theorem drawN_ids {sh : List Card → List Card} (hsh : IsShuffle sh) :
    ∀ (n : Nat) (d p : List Card),
      idsOf (drawN sh n (d, p)).1 + idsOf (drawN sh n (d, p)).2.1 +
        idsOf (drawN sh n (d, p)).2.2 = idsOf d + idsOf p := by
  intro n
  induction n with
  | zero => intro d p; simp [drawN, idsOf_nil]
  | succ n ih =>
    intro d p
    have hEns := ensureDP_ids hsh d p
    cases hpop : popCard (ensureDP sh (d, p)).1 with
    | mk oc d2 =>
      cases oc with
      | none =>
        rw [drawN_succ_none hpop]
        obtain ⟨hnil, hnil2⟩ := popCard_none hpop
        rw [ih]
        rw [hnil2, ← hnil]
        exact hEns
      | some c =>
        rw [drawN_succ_some hpop]
        have hsplit : (ensureDP sh (d, p)).1 = d2 ++ [c] := popCard_some hpop
        rw [hsplit, idsOf_append] at hEns
        have ih' := ih d2 (ensureDP sh (d, p)).2
        have h2 : idsOf d2 + idsOf (ensureDP sh (d, p)).2 + {c.id} =
            idsOf d + idsOf p := by
          rw [← hEns]
          have hc : idsOf [c] = {c.id} := rfl
          rw [hc]
          abel
        rw [idsOf_cons]
        exact ms_rearrange ih' h2

-- ----------------------------------------------------------------------
-- Stage characterizations for the post-play pipeline
-- ----------------------------------------------------------------------

/-- The state after placement, catch-penalty, UNO-flag clearing and card
effects (everything of an accepted non-winning `playCard` before the
forced stack resolution). -/
def pcStage4 (sh : List Card → List Card) (pid : String) (cid : Nat)
    (col : Option Color) (pi' : Nat) (card : Card) (pd : Bool)
    (s : GameState) : GameState :=
  playEffects card (playClearUno pi' (playPenalty sh pi' (playPlace pid pi' cid card pd col s)))

theorem playCardE_of_validate {sh : List Card → List Card} {pid : String}
    {cid : Nat} {col : Option Color} {s : GameState} {pi' : Nat}
    {card : Card} {pd : Bool}
    (hv : playValidate pid cid col s = some (pi', card, pd)) :
    playCardE sh pid cid col s =
      if (getPlayer (playPlace pid pi' cid card pd col s).players pi').hand.length = 0 then
        Except.ok { playPlace pid pi' cid card pd col s with winner := some pid }
      else
        Except.ok { playResolveStack sh (pcStage4 sh pid cid col pi' card pd s) with
          drawnCard := none } := by
  unfold playCardE pcStage4
  rw [hv]

theorem playPenalty_fire {sh : List Card → List Card} {pi' : Nat}
    {s : GameState} (h1 : (getPlayer s.players pi').hand.length = 1)
    (h2 : (getPlayer s.players pi').hasCalledUno = false) :
    playPenalty sh pi' s = { s with
      deck := (drawN sh 2 (ensureDP sh (s.deck, s.discardPile))).1,
      discardPile := (drawN sh 2 (ensureDP sh (s.deck, s.discardPile))).2.1,
      players := s.players.set pi'
        { getPlayer s.players pi' with
            hand := (getPlayer s.players pi').hand ++
              (drawN sh 2 (ensureDP sh (s.deck, s.discardPile))).2.2 },
      lastAction := appendLA s.lastAction " (Forgot UNO! draws 2)" } := by
  unfold playPenalty
  rw [if_pos (by rw [h1, h2]; rfl)]

theorem playPenalty_skip_flag {sh : List Card → List Card} {pi' : Nat}
    {s : GameState} (h : (getPlayer s.players pi').hasCalledUno = true) :
    playPenalty sh pi' s = s := by
  unfold playPenalty
  rw [if_neg (by simp [h])]

theorem playPenalty_skip_len {sh : List Card → List Card} {pi' : Nat}
    {s : GameState} (h : (getPlayer s.players pi').hand.length ≠ 1) :
    playPenalty sh pi' s = s := by
  unfold playPenalty
  rw [if_neg (by simp [h])]

theorem playPenalty_frame (sh : List Card → List Card) (pi' : Nat)
    (s : GameState) :
    (playPenalty sh pi' s).currentPlayerIndex = s.currentPlayerIndex ∧
    (playPenalty sh pi' s).direction = s.direction ∧
    (playPenalty sh pi' s).drawStack = s.drawStack ∧
    (playPenalty sh pi' s).players.length = s.players.length ∧
    (playPenalty sh pi' s).drawnCard = s.drawnCard ∧
    (playPenalty sh pi' s).winner = s.winner ∧
    (playPenalty sh pi' s).playerCache = s.playerCache := by
  unfold playPenalty
  split <;> simp

theorem playPenalty_pile_ne {sh : List Card → List Card} {pi' : Nat}
    {s : GameState} (hp : s.discardPile ≠ []) :
    (playPenalty sh pi' s).discardPile ≠ [] := by
  unfold playPenalty
  split
  · show (drawN sh 2 (ensureDP sh (s.deck, s.discardPile))).2.1 ≠ []
    have := @drawN_pile_ne sh 2 (ensureDP sh (s.deck, s.discardPile)).1
      (ensureDP sh (s.deck, s.discardPile)).2 (ensureDP_pile_ne sh _ _ hp)
    exact this
  · exact hp

theorem playClearUno_frame (pi' : Nat) (s : GameState) :
    (playClearUno pi' s).currentPlayerIndex = s.currentPlayerIndex ∧
    (playClearUno pi' s).direction = s.direction ∧
    (playClearUno pi' s).drawStack = s.drawStack ∧
    (playClearUno pi' s).players.length = s.players.length ∧
    (playClearUno pi' s).deck = s.deck ∧
    (playClearUno pi' s).discardPile = s.discardPile ∧
    (playClearUno pi' s).drawnCard = s.drawnCard ∧
    (playClearUno pi' s).winner = s.winner ∧
    (playClearUno pi' s).playerCache = s.playerCache := by
  unfold playClearUno
  split <;> simp

theorem playEffects_frame (card : Card) (s : GameState) :
    (playEffects card s).deck = s.deck ∧
    (playEffects card s).discardPile = s.discardPile ∧
    (playEffects card s).players = s.players ∧
    (playEffects card s).drawnCard = s.drawnCard ∧
    (playEffects card s).winner = s.winner ∧
    (playEffects card s).playerCache = s.playerCache := by
  exact ⟨rfl, rfl, rfl, rfl, rfl, rfl⟩

theorem playEffects_of_drawTwo {card : Card} (s : GameState)
    (h : card.value = Value.drawTwo) :
    playEffects card s =
      { s with
        drawStack := s.drawStack + 2,
        currentPlayerIndex :=
          getNextPlayerIndex s.currentPlayerIndex s.direction s.players.length } := by
  unfold playEffects
  rw [h]
  rfl

theorem playEffects_of_wildDrawFour {card : Card} (s : GameState)
    (h : card.value = Value.wildDrawFour) :
    playEffects card s =
      { s with
        drawStack := s.drawStack + 4,
        currentPlayerIndex :=
          getNextPlayerIndex s.currentPlayerIndex s.direction s.players.length } := by
  unfold playEffects
  rw [h]
  rfl

theorem playResolveStack_zero {sh : List Card → List Card} {s : GameState}
    (h : s.drawStack = 0) : playResolveStack sh s = s := by
  unfold playResolveStack
  rw [if_neg (by omega)]

theorem playResolveStack_stay {sh : List Card → List Card} {s : GameState}
    (h0 : 0 < s.drawStack)
    (hcan : (getPlayer s.players s.currentPlayerIndex).hand.any stackable = true) :
    playResolveStack sh s = s := by
  unfold playResolveStack
  rw [if_pos h0, if_pos hcan]

theorem playResolveStack_forced {sh : List Card → List Card} {s : GameState}
    (h0 : 0 < s.drawStack)
    (hcan : (getPlayer s.players s.currentPlayerIndex).hand.any stackable = false) :
    playResolveStack sh s = { s with
      deck := (drawN sh s.drawStack (ensureDP sh (s.deck, s.discardPile))).1,
      discardPile := (drawN sh s.drawStack (ensureDP sh (s.deck, s.discardPile))).2.1,
      players := s.players.set s.currentPlayerIndex
        { getPlayer s.players s.currentPlayerIndex with
            hand := (getPlayer s.players s.currentPlayerIndex).hand ++
              (drawN sh s.drawStack (ensureDP sh (s.deck, s.discardPile))).2.2 },
      lastAction := appendLA s.lastAction
        (" (" ++ (getPlayer s.players s.currentPlayerIndex).id ++ " draws cards)"),
      drawStack := 0,
      currentPlayerIndex :=
        getNextPlayerIndex s.currentPlayerIndex s.direction s.players.length } := by
  unfold playResolveStack
  rw [if_pos h0, if_neg (by simp [hcan])]

theorem playPlace_players_length (pid : String) (pi' cid : Nat) (card : Card)
    (pd : Bool) (col : Option Color) (s : GameState) :
    (playPlace pid pi' cid card pd col s).players.length = s.players.length := by
  cases pd <;> simp [playPlace]

theorem playPlace_flag (pid : String) (pi' cid : Nat) (card : Card)
    (pd : Bool) (col : Option Color) (s : GameState)
    (hlt : pi' < s.players.length) :
    (getPlayer (playPlace pid pi' cid card pd col s).players pi').hasCalledUno =
      (getPlayer s.players pi').hasCalledUno := by
  cases pd
  · rw [playPlace_players_pd_false, getPlayer_set_self _ _ _ hlt]
  · rw [playPlace_players_pd_true]

theorem getNextPlayerIndex_lt (c : Nat) (dir : Int) (n : Nat) (h : 0 < n) :
    getNextPlayerIndex c dir n < n := by
  unfold getNextPlayerIndex
  rw [if_neg (by omega)]
  have h1 : (0 : Int) < (n : Int) := by exact_mod_cast h
  have h2 := Int.emod_lt_of_pos ((c : Int) + dir + n) h1
  have h3 := Int.emod_nonneg ((c : Int) + dir + n) (by omega : (n : Int) ≠ 0)
  omega

theorem drawN_after_ensure_len {sh : List Card → List Card} (hsh : IsShuffle sh)
    (n : Nat) (d p : List Card) (hp : p ≠ []) :
    (drawN sh n (ensureDP sh (d, p))).2.2.length = min n (d.length + p.length - 1) := by
  have h1 := drawN_drawn_len hsh n (ensureDP sh (d, p)).1 (ensureDP sh (d, p)).2
    (ensureDP_pile_ne sh d p hp)
  have h2 := ensureDP_len hsh d p
  calc (drawN sh n (ensureDP sh (d, p))).2.2.length
      = (drawN sh n ((ensureDP sh (d, p)).1, (ensureDP sh (d, p)).2)).2.2.length := rfl
    _ = min n ((ensureDP sh (d, p)).1.length + (ensureDP sh (d, p)).2.length - 1) := h1
    _ = min n (d.length + p.length - 1) := by omega

theorem drawN_after_ensure_ids {sh : List Card → List Card} (hsh : IsShuffle sh)
    (n : Nat) (d p : List Card) :
    idsOf (drawN sh n (ensureDP sh (d, p))).1 +
      idsOf (drawN sh n (ensureDP sh (d, p))).2.1 +
      idsOf (drawN sh n (ensureDP sh (d, p))).2.2 = idsOf d + idsOf p := by
  have h1 := drawN_ids hsh n (ensureDP sh (d, p)).1 (ensureDP sh (d, p)).2
  have h2 := ensureDP_ids hsh d p
  calc idsOf (drawN sh n (ensureDP sh (d, p))).1 +
        idsOf (drawN sh n (ensureDP sh (d, p))).2.1 +
        idsOf (drawN sh n (ensureDP sh (d, p))).2.2
      = idsOf (ensureDP sh (d, p)).1 + idsOf (ensureDP sh (d, p)).2 := h1
    _ = idsOf d + idsOf p := h2

theorem ms_shift {X Y B D P H : Multiset Nat} (h : X + Y + B = D + P) :
    X + Y + (H + B) = D + P + H := by
  rw [← h]
  abel

-- ----------------------------------------------------------------------
-- C5: the 2-card catch-penalty
-- ----------------------------------------------------------------------

/-- C5 (counterexample): with an exhausted deck (deck empty, a single
discard), an accepted play that brings the hand to one card without a
low-hand declaration draws only the single recyclable card instead of
exactly 2 — the hand after the catch-penalty has 2 cards, not 3. -/
def c5cexState : GameState :=
  ⟨[], [⟨some Color.red, Value.num 3, 5⟩],
   [⟨"a", [⟨some Color.red, Value.num 5, 9⟩, ⟨some Color.blue, Value.num 7, 38⟩], false⟩,
    ⟨"b", [⟨some Color.green, Value.num 2, 54⟩], false⟩],
   0, 1, Color.red, none, none, none, 0, []⟩

theorem catch_penalty_underdraws :
    isOkE (playCardE idShuffle "a" 9 none c5cexState) = true ∧
    (getPlayer c5cexState.players 0).hasCalledUno = false ∧
    (getPlayer (playPenalty idShuffle 0
        (playPlace "a" 0 9 ⟨some Color.red, Value.num 5, 9⟩ false none c5cexState)).players
      0).hand.length = 2 := by
  refine ⟨rfl, rfl, rfl⟩

/-- C5 (amended): for every accepted `playCard` that leaves the acting
player's hand at exactly one card, if the low-hand (UNO) flag is unset the
catch-penalty fires immediately after placement — before the flag
clearing, the card effects and the stack resolution — drawing exactly
`min 2 (available)` cards from the deck (refilling from the discard pile
as needed) into that player's hand, hence exactly 2 whenever deck and
discard together held at least 2 cards before the play; the drawn cards
come from the deck/discard (identifier conservation across the penalty
stage).  If the flag is set, the penalty stage changes nothing. -/
theorem playCard_catch_penalty (sh : List Card → List Card) (pid : String)
    (cid : Nat) (col : Option Color) (s : GameState) (pi' : Nat) (card : Card)
    (pd : Bool) (hsh : IsShuffle sh)
    (hv : playValidate pid cid col s = some (pi', card, pd))
    (h1 : (getPlayer (playPlace pid pi' cid card pd col s).players pi').hand.length = 1)
    (havail : 2 ≤ s.deck.length + s.discardPile.length) :
    (playCardE sh pid cid col s = Except.ok
      { playResolveStack sh (pcStage4 sh pid cid col pi' card pd s) with
        drawnCard := none }) ∧
    ((getPlayer s.players pi').hasCalledUno = false →
      (getPlayer (playPenalty sh pi'
          (playPlace pid pi' cid card pd col s)).players pi').hand.length = 3 ∧
      (getPlayer (playPenalty sh pi'
          (playPlace pid pi' cid card pd col s)).players pi').hand.take 1 =
        (getPlayer (playPlace pid pi' cid card pd col s).players pi').hand ∧
      idsOf (playPenalty sh pi' (playPlace pid pi' cid card pd col s)).deck +
        idsOf (playPenalty sh pi' (playPlace pid pi' cid card pd col s)).discardPile +
        idsOf (getPlayer (playPenalty sh pi'
          (playPlace pid pi' cid card pd col s)).players pi').hand =
      idsOf (playPlace pid pi' cid card pd col s).deck +
        idsOf (playPlace pid pi' cid card pd col s).discardPile +
        idsOf (getPlayer (playPlace pid pi' cid card pd col s).players pi').hand) ∧
    ((getPlayer s.players pi').hasCalledUno = true →
      playPenalty sh pi' (playPlace pid pi' cid card pd col s) =
        playPlace pid pi' cid card pd col s) := by
  have hlt : pi' < s.players.length := findIdxA_lt (playValidate_some hv).1
  have hlen1 : (playPlace pid pi' cid card pd col s).players.length = s.players.length :=
    playPlace_players_length pid pi' cid card pd col s
  have hlt1 : pi' < (playPlace pid pi' cid card pd col s).players.length := by omega
  have hflagEq := playPlace_flag pid pi' cid card pd col s hlt
  obtain ⟨hdeck, _, _, _, _, _, hpile⟩ := playPlace_frame pid pi' cid card pd col s
  have hpne : (playPlace pid pi' cid card pd col s).discardPile ≠ [] := by
    rw [hpile]; simp
  refine ⟨?_, ?_, ?_⟩
  · rw [playCardE_of_validate hv, if_neg (by simp [h1])]
  · intro hflag
    have hflag1 : (getPlayer (playPlace pid pi' cid card pd col s).players
        pi').hasCalledUno = false := by rw [hflagEq]; exact hflag
    have hfire := @playPenalty_fire sh _ _ h1 hflag1
    have hhand : (getPlayer (playPenalty sh pi'
        (playPlace pid pi' cid card pd col s)).players pi').hand =
        (getPlayer (playPlace pid pi' cid card pd col s).players pi').hand ++
          (drawN sh 2 (ensureDP sh ((playPlace pid pi' cid card pd col s).deck,
            (playPlace pid pi' cid card pd col s).discardPile))).2.2 := by
      rw [hfire]
      show (getPlayer ((playPlace pid pi' cid card pd col s).players.set pi' _) pi').hand = _
      rw [getPlayer_set_self _ _ _ hlt1]
    have hdlen : (drawN sh 2 (ensureDP sh ((playPlace pid pi' cid card pd col s).deck,
        (playPlace pid pi' cid card pd col s).discardPile))).2.2.length = 2 := by
      rw [drawN_after_ensure_len hsh 2 _ _ hpne]
      have e1 : (playPlace pid pi' cid card pd col s).deck.length = s.deck.length := by
        rw [hdeck]
      have e2 : (playPlace pid pi' cid card pd col s).discardPile.length =
          s.discardPile.length + 1 := by
        rw [hpile]; simp
      omega
    refine ⟨?_, ?_, ?_⟩
    · rw [hhand]
      simp only [List.length_append, h1, hdlen]
    · rw [hhand, ← h1, List.take_left]
    · have hd2 : (playPenalty sh pi' (playPlace pid pi' cid card pd col s)).deck =
          (drawN sh 2 (ensureDP sh ((playPlace pid pi' cid card pd col s).deck,
            (playPlace pid pi' cid card pd col s).discardPile))).1 := by
        rw [hfire]
      have hp2 : (playPenalty sh pi' (playPlace pid pi' cid card pd col s)).discardPile =
          (drawN sh 2 (ensureDP sh ((playPlace pid pi' cid card pd col s).deck,
            (playPlace pid pi' cid card pd col s).discardPile))).2.1 := by
        rw [hfire]
      rw [hd2, hp2, hhand, idsOf_append]
      exact ms_shift (drawN_after_ensure_ids hsh 2 _ _)
  · intro hflag
    have hflag1 : (getPlayer (playPlace pid pi' cid card pd col s).players
        pi').hasCalledUno = true := by rw [hflagEq]; exact hflag
    exact playPenalty_skip_flag hflag1

/-- C5 witness: hand `[red-5, red-3]`, no declaration; playing red-5 on a
red-9 with a 3-card deck leaves the player with 3 cards (1 + the 2-card
penalty). -/
def c5wState : GameState :=
  ⟨[⟨some Color.green, Value.num 1, 52⟩, ⟨some Color.green, Value.num 2, 54⟩,
    ⟨some Color.green, Value.num 4, 58⟩],
   [⟨some Color.red, Value.num 9, 17⟩],
   [⟨"a", [⟨some Color.red, Value.num 5, 9⟩, ⟨some Color.red, Value.num 3, 5⟩], false⟩,
    ⟨"b", [⟨some Color.yellow, Value.num 3, 81⟩], false⟩],
   0, 1, Color.red, none, none, none, 0, []⟩

theorem playCard_catch_penalty_witness :
    (getPlayer (playPenalty idShuffle 0
        (playPlace "a" 0 9 ⟨some Color.red, Value.num 5, 9⟩ false none c5wState)).players
      0).hand.length = 3 :=
  ((playCard_catch_penalty idShuffle "a" 9 none c5wState 0
      ⟨some Color.red, Value.num 5, 9⟩ false isShuffle_id rfl rfl (by decide)).2.1 rfl).1

-- ----------------------------------------------------------------------
-- C6: forced draw-stack resolution after a drawTwo / wildDrawFour play
-- ----------------------------------------------------------------------

/-- C6 (counterexample): an accepted `playCard` of a drawTwo that empties
the hand wins immediately: the turn does not advance and the draw stack
stays zero, so the claim as stated (every accepted drawTwo/wildDrawFour
play advances the turn once and leaves a nonzero stack to inspect) fails
on winning plays. -/
def c6cexState : GameState :=
  ⟨[⟨some Color.green, Value.num 1, 52⟩], [⟨some Color.red, Value.num 9, 17⟩],
   [⟨"a", [⟨some Color.red, Value.drawTwo, 23⟩], true⟩,
    ⟨"b", [⟨some Color.yellow, Value.num 3, 81⟩], false⟩],
   0, 1, Color.red, none, none, none, 0, []⟩

theorem stack_play_win_no_advance :
    isOkE (playCardE idShuffle "a" 23 none c6cexState) = true ∧
    (⟨some Color.red, Value.drawTwo, 23⟩ : Card).value = Value.drawTwo ∧
    c6cexState.currentPlayerIndex = 0 ∧
    (exceptOkD (playCardE idShuffle "a" 23 none c6cexState)).currentPlayerIndex = 0 ∧
    (exceptOkD (playCardE idShuffle "a" 23 none c6cexState)).drawStack = 0 ∧
    (exceptOkD (playCardE idShuffle "a" 23 none c6cexState)).winner = some "a" := by
  refine ⟨rfl, rfl, rfl, rfl, rfl, rfl⟩

/-- C6 (amended): after an accepted non-winning play of a drawTwo (+2) or
wildDrawFour (+4), the turn has advanced exactly once (direction intact)
and the draw stack has grown by 2 resp. 4; then the new current player's
hand is inspected: if it holds a drawTwo/wildDrawFour the stack and turn
are left as-is, otherwise that player immediately draws the full stacked
amount (in full whenever the deck plus recyclable discard suffice; capped
by availability otherwise), the stack resets to zero and the turn advances
again. -/
theorem playEffects_stackCard_fields (card : Card) (s : GameState)
    (hval : card.value = Value.drawTwo ∨ card.value = Value.wildDrawFour) :
    (playEffects card s).direction = s.direction ∧
    (playEffects card s).currentPlayerIndex =
      getNextPlayerIndex s.currentPlayerIndex s.direction s.players.length ∧
    (playEffects card s).drawStack =
      s.drawStack + (if card.value = Value.drawTwo then 2 else 4) := by
  rcases hval with hA | hA
  · rw [playEffects_of_drawTwo _ hA, hA]
    refine ⟨rfl, rfl, ?_⟩
    simp
  · rw [playEffects_of_wildDrawFour _ hA, hA]
    refine ⟨rfl, rfl, ?_⟩
    simp

theorem playCard_stack_resolution (sh : List Card → List Card) (pid : String)
    (cid : Nat) (col : Option Color) (s : GameState) (pi' : Nat) (card : Card)
    (pd : Bool) (hsh : IsShuffle sh)
    (hv : playValidate pid cid col s = some (pi', card, pd))
    (hval : card.value = Value.drawTwo ∨ card.value = Value.wildDrawFour)
    (hnw : (getPlayer (playPlace pid pi' cid card pd col s).players pi').hand.length ≠ 0) :
    (playCardE sh pid cid col s = Except.ok
      { playResolveStack sh (pcStage4 sh pid cid col pi' card pd s) with
        drawnCard := none }) ∧
    (pcStage4 sh pid cid col pi' card pd s).direction = s.direction ∧
    (pcStage4 sh pid cid col pi' card pd s).currentPlayerIndex =
      getNextPlayerIndex s.currentPlayerIndex s.direction s.players.length ∧
    (pcStage4 sh pid cid col pi' card pd s).drawStack =
      s.drawStack + (if card.value = Value.drawTwo then 2 else 4) ∧
    ((getPlayer (pcStage4 sh pid cid col pi' card pd s).players
        (pcStage4 sh pid cid col pi' card pd s).currentPlayerIndex).hand.any stackable = true →
      playResolveStack sh (pcStage4 sh pid cid col pi' card pd s) =
        pcStage4 sh pid cid col pi' card pd s) ∧
    ((getPlayer (pcStage4 sh pid cid col pi' card pd s).players
        (pcStage4 sh pid cid col pi' card pd s).currentPlayerIndex).hand.any stackable = false →
      (playResolveStack sh (pcStage4 sh pid cid col pi' card pd s)).drawStack = 0 ∧
      (playResolveStack sh (pcStage4 sh pid cid col pi' card pd s)).currentPlayerIndex =
        getNextPlayerIndex (pcStage4 sh pid cid col pi' card pd s).currentPlayerIndex
          (pcStage4 sh pid cid col pi' card pd s).direction
          (pcStage4 sh pid cid col pi' card pd s).players.length ∧
      ((pcStage4 sh pid cid col pi' card pd s).drawStack ≤
          (pcStage4 sh pid cid col pi' card pd s).deck.length +
          (pcStage4 sh pid cid col pi' card pd s).discardPile.length - 1 →
        (getPlayer (playResolveStack sh (pcStage4 sh pid cid col pi' card pd s)).players
            (pcStage4 sh pid cid col pi' card pd s).currentPlayerIndex).hand.length =
          (getPlayer (pcStage4 sh pid cid col pi' card pd s).players
            (pcStage4 sh pid cid col pi' card pd s).currentPlayerIndex).hand.length +
          (pcStage4 sh pid cid col pi' card pd s).drawStack)) := by
  unfold pcStage4
  have hlt : pi' < s.players.length := findIdxA_lt (playValidate_some hv).1
  have hnp : 0 < s.players.length := by omega
  have hlen1 := playPlace_players_length pid pi' cid card pd col s
  obtain ⟨g1, g2, g3, g4, g5, g6, g7⟩ := playPlace_frame pid pi' cid card pd col s
  obtain ⟨p1, p2, p3, p4, p5, p6, p7⟩ :=
    playPenalty_frame sh pi' (playPlace pid pi' cid card pd col s)
  obtain ⟨u1, u2, u3, u4, u5, u6, u7, u8, u9⟩ :=
    playClearUno_frame pi' (playPenalty sh pi' (playPlace pid pi' cid card pd col s))
  obtain ⟨e1, e2, e3⟩ := playEffects_stackCard_fields card
    (playClearUno pi' (playPenalty sh pi' (playPlace pid pi' cid card pd col s))) hval
  obtain ⟨w1, w2, w3, w4, w5, w6⟩ := playEffects_frame card
    (playClearUno pi' (playPenalty sh pi' (playPlace pid pi' cid card pd col s)))
  have hdir : (playEffects card (playClearUno pi' (playPenalty sh pi'
      (playPlace pid pi' cid card pd col s)))).direction = s.direction := by
    rw [e1, u2, p2, g3]
  have hcpi : (playEffects card (playClearUno pi' (playPenalty sh pi'
      (playPlace pid pi' cid card pd col s)))).currentPlayerIndex =
      getNextPlayerIndex s.currentPlayerIndex s.direction s.players.length := by
    rw [e2, u1, p1, g2, u2, p2, g3, u4, p4, hlen1]
  have hstack : (playEffects card (playClearUno pi' (playPenalty sh pi'
      (playPlace pid pi' cid card pd col s)))).drawStack =
      s.drawStack + (if card.value = Value.drawTwo then 2 else 4) := by
    rw [e3, u3, p3, g4]
  have hlen4 : (playEffects card (playClearUno pi' (playPenalty sh pi'
      (playPlace pid pi' cid card pd col s)))).players.length = s.players.length := by
    rw [w3, u4, p4, hlen1]
  have hpile4 : (playEffects card (playClearUno pi' (playPenalty sh pi'
      (playPlace pid pi' cid card pd col s)))).discardPile ≠ [] := by
    rw [w2, u6]
    exact playPenalty_pile_ne (by rw [g7]; simp)
  have h0stack : 0 < (playEffects card (playClearUno pi' (playPenalty sh pi'
      (playPlace pid pi' cid card pd col s)))).drawStack := by
    rw [hstack]
    split <;> omega
  refine ⟨?_, hdir, hcpi, hstack, ?_, ?_⟩
  · rw [playCardE_of_validate hv, if_neg hnw]
    rfl
  · intro hcan
    exact playResolveStack_stay h0stack hcan
  · intro hcan
    have hforce := @playResolveStack_forced sh _ h0stack hcan
    refine ⟨by rw [hforce], by rw [hforce], ?_⟩
    intro havail
    have hcpiLt : (playEffects card (playClearUno pi' (playPenalty sh pi'
        (playPlace pid pi' cid card pd col s)))).currentPlayerIndex <
        (playEffects card (playClearUno pi' (playPenalty sh pi'
          (playPlace pid pi' cid card pd col s)))).players.length := by
      rw [hcpi, hlen4]
      exact getNextPlayerIndex_lt _ _ _ hnp
    have hhand : (getPlayer (playResolveStack sh (playEffects card (playClearUno pi'
        (playPenalty sh pi' (playPlace pid pi' cid card pd col s))))).players
        (playEffects card (playClearUno pi' (playPenalty sh pi'
          (playPlace pid pi' cid card pd col s)))).currentPlayerIndex).hand =
        (getPlayer (playEffects card (playClearUno pi' (playPenalty sh pi'
          (playPlace pid pi' cid card pd col s)))).players
          (playEffects card (playClearUno pi' (playPenalty sh pi'
            (playPlace pid pi' cid card pd col s)))).currentPlayerIndex).hand ++
        (drawN sh (playEffects card (playClearUno pi' (playPenalty sh pi'
            (playPlace pid pi' cid card pd col s)))).drawStack
          (ensureDP sh ((playEffects card (playClearUno pi' (playPenalty sh pi'
              (playPlace pid pi' cid card pd col s)))).deck,
            (playEffects card (playClearUno pi' (playPenalty sh pi'
              (playPlace pid pi' cid card pd col s)))).discardPile))).2.2 := by
      rw [hforce]
      rw [getPlayer_set_self _ _ _ hcpiLt]
    rw [hhand]
    simp only [List.length_append]
    have hdlen := drawN_after_ensure_len hsh
      (playEffects card (playClearUno pi' (playPenalty sh pi'
        (playPlace pid pi' cid card pd col s)))).drawStack
      (playEffects card (playClearUno pi' (playPenalty sh pi'
        (playPlace pid pi' cid card pd col s)))).deck
      (playEffects card (playClearUno pi' (playPenalty sh pi'
        (playPlace pid pi' cid card pd col s)))).discardPile hpile4
    omega

/-- C6 witness: a red drawTwo played from a 3-card hand; the opponent
holds no stackable card and a 2-card deck suffices, so they draw exactly
the stacked 2 and the turn advances past them. -/
def c6wState : GameState :=
  ⟨[⟨some Color.green, Value.num 1, 52⟩, ⟨some Color.green, Value.num 2, 54⟩],
   [⟨some Color.red, Value.num 9, 17⟩],
   [⟨"a", [⟨some Color.red, Value.drawTwo, 23⟩, ⟨some Color.red, Value.num 1, 1⟩,
     ⟨some Color.red, Value.num 2, 3⟩], false⟩,
    ⟨"b", [⟨some Color.yellow, Value.num 3, 81⟩], false⟩],
   0, 1, Color.red, none, none, none, 0, []⟩

theorem playCard_stack_resolution_witness :
    (getPlayer (playResolveStack idShuffle
        (pcStage4 idShuffle "a" 23 none 0 ⟨some Color.red, Value.drawTwo, 23⟩ false
          c6wState)).players
      (pcStage4 idShuffle "a" 23 none 0 ⟨some Color.red, Value.drawTwo, 23⟩ false
        c6wState).currentPlayerIndex).hand.length =
    (getPlayer (pcStage4 idShuffle "a" 23 none 0 ⟨some Color.red, Value.drawTwo, 23⟩
        false c6wState).players
      (pcStage4 idShuffle "a" 23 none 0 ⟨some Color.red, Value.drawTwo, 23⟩ false
        c6wState).currentPlayerIndex).hand.length +
    (pcStage4 idShuffle "a" 23 none 0 ⟨some Color.red, Value.drawTwo, 23⟩ false
      c6wState).drawStack :=
  ((playCard_stack_resolution idShuffle "a" 23 none c6wState 0
      ⟨some Color.red, Value.drawTwo, 23⟩ false isShuffle_id rfl (Or.inl rfl)
      (by decide)).2.2.2.2.2 rfl).2.2 (by decide)

-- ----------------------------------------------------------------------
-- C1: card accounting per action
-- ----------------------------------------------------------------------

theorem set_oob {α : Type} {l : List α} {i : Nat} (a : α) (h : l.length ≤ i) :
    l.set i a = l := by
  induction l generalizing i with
  | nil => simp
  | cons x xs ih =>
    cases i with
    | zero => simp at h
    | succ j =>
      simp only [List.set_cons_succ, List.cons.injEq, true_and]
      exact ih (by simpa using h)

theorem handsIds_cons (p : PlayerState) (ps : List PlayerState) :
    handsIds (p :: ps) = idsOf p.hand + handsIds ps := by
  simp [handsIds]

theorem handsIds_set {ps : List PlayerState} {i : Nat} (q : PlayerState)
    (h : i < ps.length) :
    handsIds (ps.set i q) + idsOf (getPlayer ps i).hand =
      handsIds ps + idsOf q.hand := by
  induction ps generalizing i with
  | nil => simp at h
  | cons x xs ih =>
    cases i with
    | zero =>
      simp only [List.set_cons_zero, handsIds_cons, getPlayer, List.getD_cons_zero]
      abel
    | succ j =>
      simp only [List.set_cons_succ, handsIds_cons, getPlayer, List.getD_cons_succ]
      have := ih (i := j) (by simpa using h)
      simp only [getPlayer] at this
      calc idsOf x.hand + handsIds (xs.set j q) + idsOf (xs.getD j defaultPlayer).hand
          = idsOf x.hand + (handsIds (xs.set j q) + idsOf (xs.getD j defaultPlayer).hand) := by abel
        _ = idsOf x.hand + (handsIds xs + idsOf q.hand) := by rw [this]
        _ = idsOf x.hand + handsIds xs + idsOf q.hand := by abel

theorem handsIds_eraseIdx {ps : List PlayerState} {i : Nat} (h : i < ps.length) :
    handsIds (ps.eraseIdx i) + idsOf (getPlayer ps i).hand = handsIds ps := by
  induction ps generalizing i with
  | nil => simp at h
  | cons x xs ih =>
    cases i with
    | zero =>
      simp only [List.eraseIdx_cons_zero, handsIds_cons, getPlayer, List.getD_cons_zero]
      abel
    | succ j =>
      simp only [List.eraseIdx_cons_succ, handsIds_cons, getPlayer, List.getD_cons_succ]
      have := ih (i := j) (by simpa using h)
      simp only [getPlayer] at this
      calc idsOf x.hand + handsIds (xs.eraseIdx j) + idsOf (xs.getD j defaultPlayer).hand
          = idsOf x.hand + (handsIds (xs.eraseIdx j) + idsOf (xs.getD j defaultPlayer).hand) := by abel
        _ = idsOf x.hand + handsIds xs := by rw [this]

theorem handsIds_set_le {ps : List PlayerState} {i : Nat} {q : PlayerState}
    {extra : Multiset Nat}
    (hq : idsOf q.hand = idsOf (getPlayer ps i).hand + extra) :
    handsIds (ps.set i q) ≤ handsIds ps + extra := by
  by_cases h : i < ps.length
  · have h1 := handsIds_set q h
    rw [hq] at h1
    have : handsIds (ps.set i q) = handsIds ps + extra := by
      have h2 : handsIds (ps.set i q) + idsOf (getPlayer ps i).hand =
          (handsIds ps + extra) + idsOf (getPlayer ps i).hand := by
        rw [h1]; abel
      exact add_right_cancel h2
    exact le_of_eq this
  · rw [set_oob q (by omega)]
    exact le_add_right (le_refl _)

theorem idsOf_eraseIdx {l : List Card} {i : Nat} (dc : Card) (h : i < l.length) :
    idsOf l = (l.getD i dc).id ::ₘ idsOf (l.eraseIdx i) := by
  induction l generalizing i with
  | nil => simp at h
  | cons x xs ih =>
    cases i with
    | zero => simp [idsOf_cons]
    | succ j =>
      simp only [List.getD_cons_succ, List.eraseIdx_cons_succ, idsOf_cons]
      rw [ih (by simpa using h)]
      rw [Multiset.cons_swap]

theorem cacheIds_filter_le (f : String × List Card → Bool)
    (m : List (String × List Card)) :
    cacheIds (m.filter f) ≤ cacheIds m := by
  induction m with
  | nil => simp [cacheIds]
  | cons kv m ih =>
    by_cases h : f kv = true
    · rw [List.filter_cons_of_pos h]
      simp only [cacheIds, List.map_cons, List.sum_cons]
      exact add_le_add_left ih _
    · rw [List.filter_cons_of_neg (by simpa using h)]
      simp only [cacheIds, List.map_cons, List.sum_cons]
      calc (List.map (fun kv => idsOf kv.2) (m.filter f)).sum
          ≤ (List.map (fun kv => idsOf kv.2) m).sum := ih
        _ ≤ idsOf kv.2 + (List.map (fun kv => idsOf kv.2) m).sum :=
            le_add_self

theorem cacheSet_le (k : String) (v : List Card)
    (m : List (String × List Card)) :
    cacheIds (cacheSet k v m) ≤ idsOf v + cacheIds m := by
  simp only [cacheSet, cacheErase, cacheIds, List.map_cons, List.sum_cons]
  exact add_le_add_left (cacheIds_filter_le _ m) _

theorem cacheLookup_erase_le {k : String} {v : List Card}
    {m : List (String × List Card)} (h : cacheLookup k m = some v) :
    idsOf v + cacheIds (cacheErase k m) ≤ cacheIds m := by
  induction m with
  | nil => simp [cacheLookup] at h
  | cons kv m ih =>
    cases hk : kv.1 == k with
    | true =>
      have hfind : List.find? (fun kv => kv.1 == k) (kv :: m) = some kv :=
        List.find?_cons_of_pos _ hk
      have hv : v = kv.2 := by
        unfold cacheLookup at h
        rw [hfind] at h
        simpa using h.symm
      subst hv
      have hfilter : (kv :: m).filter (fun kv => !(kv.1 == k)) =
          m.filter (fun kv => !(kv.1 == k)) :=
        List.filter_cons_of_neg (by rw [hk]; simp)
      show idsOf kv.2 + cacheIds (cacheErase k (kv :: m)) ≤ cacheIds (kv :: m)
      unfold cacheErase
      rw [hfilter]
      have hle : cacheIds (m.filter fun kv => !(kv.1 == k)) ≤ cacheIds m :=
        cacheIds_filter_le _ m
      calc idsOf kv.2 + cacheIds (m.filter fun kv => !(kv.1 == k))
          ≤ idsOf kv.2 + cacheIds m := add_le_add_left hle _
        _ = cacheIds (kv :: m) := by simp [cacheIds]
    | false =>
      have hfind : List.find? (fun kv => kv.1 == k) (kv :: m) =
          List.find? (fun kv => kv.1 == k) m :=
        List.find?_cons_of_neg _ (by rw [hk]; exact Bool.false_ne_true)
      have hl : cacheLookup k m = some v := by
        unfold cacheLookup at h ⊢
        rw [hfind] at h
        exact h
      have hfilter : (kv :: m).filter (fun kv => !(kv.1 == k)) =
          kv :: m.filter (fun kv => !(kv.1 == k)) :=
        List.filter_cons_of_pos (by rw [hk]; rfl)
      show idsOf v + cacheIds (cacheErase k (kv :: m)) ≤ cacheIds (kv :: m)
      unfold cacheErase
      rw [hfilter]
      have hrec := ih hl
      have e1 : cacheIds (kv :: m.filter fun kv => !(kv.1 == k)) =
          idsOf kv.2 + cacheIds (m.filter fun kv => !(kv.1 == k)) := by
        simp [cacheIds]
      have e2 : cacheIds (kv :: m) = idsOf kv.2 + cacheIds m := by
        simp [cacheIds]
      rw [e1, e2]
      calc idsOf v + (idsOf kv.2 + cacheIds (m.filter fun kv => !(kv.1 == k)))
          = idsOf kv.2 + (idsOf v + cacheIds (cacheErase k m)) := by
            unfold cacheErase
            abel
        _ ≤ idsOf kv.2 + cacheIds m := add_le_add_left hrec _

theorem handsIds_flag_le {ps : List PlayerState} {i : Nat} {q : PlayerState}
    (hq : idsOf q.hand = idsOf (getPlayer ps i).hand) :
    handsIds (ps.set i q) ≤ handsIds ps := by
  have hq0 : idsOf q.hand = idsOf (getPlayer ps i).hand + 0 := by
    rw [add_zero]; exact hq
  have := handsIds_set_le hq0
  rwa [add_zero] at this

/-- The common "refill + draw n cards into player i" accounting bound. -/
theorem drawInto_total_le {sh : List Card → List Card} (hsh : IsShuffle sh)
    (n : Nat) (s : GameState) (i : Nat) {q : PlayerState}
    (hq : idsOf q.hand = idsOf (getPlayer s.players i).hand +
      idsOf (drawN sh n (ensureDP sh (s.deck, s.discardPile))).2.2) :
    idsOf (drawN sh n (ensureDP sh (s.deck, s.discardPile))).1 +
      idsOf (drawN sh n (ensureDP sh (s.deck, s.discardPile))).2.1 +
      handsIds (s.players.set i q) + drawnIds s.drawnCard +
      cacheIds s.playerCache ≤ totalIds s := by
  have hids := drawN_after_ensure_ids hsh n s.deck s.discardPile
  have hle := handsIds_set_le hq
  calc idsOf (drawN sh n (ensureDP sh (s.deck, s.discardPile))).1 +
        idsOf (drawN sh n (ensureDP sh (s.deck, s.discardPile))).2.1 +
        handsIds (s.players.set i q) + drawnIds s.drawnCard +
        cacheIds s.playerCache
      ≤ idsOf (drawN sh n (ensureDP sh (s.deck, s.discardPile))).1 +
        idsOf (drawN sh n (ensureDP sh (s.deck, s.discardPile))).2.1 +
        (handsIds s.players +
          idsOf (drawN sh n (ensureDP sh (s.deck, s.discardPile))).2.2) +
        drawnIds s.drawnCard + cacheIds s.playerCache := by
        exact add_le_add_right (add_le_add_right (add_le_add_left hle _) _) _
    _ = (idsOf (drawN sh n (ensureDP sh (s.deck, s.discardPile))).1 +
        idsOf (drawN sh n (ensureDP sh (s.deck, s.discardPile))).2.1 +
        idsOf (drawN sh n (ensureDP sh (s.deck, s.discardPile))).2.2) +
        handsIds s.players + drawnIds s.drawnCard + cacheIds s.playerCache := by
        abel
    _ = (idsOf s.deck + idsOf s.discardPile) + handsIds s.players +
        drawnIds s.drawnCard + cacheIds s.playerCache := by rw [hids]
    _ = totalIds s := by unfold totalIds; abel

theorem playPlace_total {pid : String} {cid : Nat} {col : Option Color}
    {s : GameState} {pi' : Nat} {card : Card} {pd : Bool}
    (hv : playValidate pid cid col s = some (pi', card, pd)) :
    totalIds (playPlace pid pi' cid card pd col s) = totalIds s := by
  obtain ⟨hf, hc, hT, hF⟩ := playValidate_some hv
  have hlt : pi' < s.players.length := findIdxA_lt hf
  cases pd
  · obtain ⟨ci, hci, hcard⟩ := hF rfl
    have hcilt : ci < (getPlayer s.players pi').hand.length := findIdxA_lt hci
    have hpp := playPlace_players_pd_false pid pi' cid card col s
    rw [hci] at hpp
    simp only [Option.getD_some] at hpp
    have h2 : idsOf (getPlayer s.players pi').hand =
        card.id ::ₘ idsOf ((getPlayer s.players pi').hand.eraseIdx ci) := by
      have := idsOf_eraseIdx defaultCard hcilt
      rw [← hcard] at this
      exact this
    have h1 := handsIds_set
      { getPlayer s.players pi' with
          hand := (getPlayer s.players pi').hand.eraseIdx ci } hlt
    dsimp only at h1
    rw [h2, ← Multiset.singleton_add] at h1
    have hH : handsIds (s.players.set pi'
        { getPlayer s.players pi' with
            hand := (getPlayer s.players pi').hand.eraseIdx ci }) + {card.id} =
        handsIds s.players := by
      refine add_right_cancel (b := idsOf ((getPlayer s.players pi').hand.eraseIdx ci)) ?_
      calc handsIds (s.players.set pi'
            { getPlayer s.players pi' with
                hand := (getPlayer s.players pi').hand.eraseIdx ci }) + {card.id} +
            idsOf ((getPlayer s.players pi').hand.eraseIdx ci)
          = handsIds (s.players.set pi'
              { getPlayer s.players pi' with
                  hand := (getPlayer s.players pi').hand.eraseIdx ci }) +
            ({card.id} + idsOf ((getPlayer s.players pi').hand.eraseIdx ci)) := by abel
        _ = handsIds s.players +
            idsOf ((getPlayer s.players pi').hand.eraseIdx ci) := h1
    obtain ⟨f1, f2, f3, f4, f5, f6, f7⟩ := playPlace_frame pid pi' cid card false col s
    unfold totalIds
    rw [f1, f7, f5, hpp, playPlace_drawnCard_pd_false, idsOf_append]
    have hcid : idsOf [card] = {card.id} := rfl
    rw [hcid, ← hH]
    abel
  · have hT' := hT rfl
    obtain ⟨f1, f2, f3, f4, f5, f6, f7⟩ := playPlace_frame pid pi' cid card true col s
    unfold totalIds
    rw [f1, f7, f5, playPlace_players_pd_true, playPlace_drawnCard_pd_true, hT'.1,
      idsOf_append]
    have hcid : idsOf [card] = {card.id} := rfl
    have hdr : drawnIds (some card) = {card.id} := rfl
    have hdr0 : drawnIds none = 0 := rfl
    rw [hcid, hdr, hdr0]
    abel

theorem playEffects_total (card : Card) (s : GameState) :
    totalIds (playEffects card s) = totalIds s := rfl

theorem playClearUno_total_le (pi' : Nat) (s : GameState) :
    totalIds (playClearUno pi' s) ≤ totalIds s := by
  unfold playClearUno
  split
  · show idsOf s.deck + idsOf s.discardPile + handsIds (s.players.set pi' _) +
      drawnIds s.drawnCard + cacheIds s.playerCache ≤ totalIds s
    have hfl : idsOf ({ getPlayer s.players pi' with hasCalledUno := false } :
        PlayerState).hand = idsOf (getPlayer s.players pi').hand := rfl
    have := handsIds_flag_le hfl
    calc idsOf s.deck + idsOf s.discardPile +
          handsIds (s.players.set pi' { getPlayer s.players pi' with hasCalledUno := false }) +
          drawnIds s.drawnCard + cacheIds s.playerCache
        ≤ idsOf s.deck + idsOf s.discardPile + handsIds s.players +
          drawnIds s.drawnCard + cacheIds s.playerCache := by
          exact add_le_add_right (add_le_add_right (add_le_add_left this _) _) _
      _ = totalIds s := rfl
  · exact le_refl _

theorem playPenalty_total_le {sh : List Card → List Card} (hsh : IsShuffle sh)
    (pi' : Nat) (s : GameState) :
    totalIds (playPenalty sh pi' s) ≤ totalIds s := by
  unfold playPenalty
  split
  · exact drawInto_total_le hsh 2 s pi' (by dsimp only; rw [idsOf_append])
  · exact le_refl _

theorem playResolveStack_total_le {sh : List Card → List Card}
    (hsh : IsShuffle sh) (s : GameState) :
    totalIds (playResolveStack sh s) ≤ totalIds s := by
  unfold playResolveStack
  split
  · split
    · exact le_refl _
    · exact drawInto_total_le hsh s.drawStack s s.currentPlayerIndex
        (by dsimp only; rw [idsOf_append])
  · exact le_refl _

theorem handsIds_singleton (p : PlayerState) : handsIds [p] = idsOf p.hand := by
  simp [handsIds]

theorem playCardE_total_le {sh : List Card → List Card} (hsh : IsShuffle sh)
    {pid : String} {cid : Nat} {col : Option Color} {s s' : GameState}
    (h : playCardE sh pid cid col s = Except.ok s') :
    totalIds s' ≤ totalIds s := by
  unfold playCardE at h
  split at h
  · exact absurd h (by simp)
  next pi' card pd hv =>
    split at h
    · injection h with h'
      subst h'
      exact le_of_eq (playPlace_total hv)
    · injection h with h'
      subst h'
      have h5 : totalIds { playResolveStack sh
            (playEffects card (playClearUno pi'
              (playPenalty sh pi' (playPlace pid pi' cid card pd col s)))) with
          drawnCard := none } ≤
          totalIds (playResolveStack sh (playEffects card (playClearUno pi'
            (playPenalty sh pi' (playPlace pid pi' cid card pd col s))))) := by
        unfold totalIds
        dsimp only
        have h0 : drawnIds none = 0 := rfl
        rw [h0]
        exact add_le_add_right (add_le_add_left (zero_le _) _) _
      refine le_trans h5 (le_trans (playResolveStack_total_le hsh _) ?_)
      rw [playEffects_total]
      refine le_trans (playClearUno_total_le _ _) ?_
      refine le_trans (playPenalty_total_le hsh _ _) ?_
      exact le_of_eq (playPlace_total hv)

theorem drawCardE_total_le {sh : List Card → List Card} (hsh : IsShuffle sh)
    {pid : String} {s s' : GameState}
    (h : drawCardE sh pid s = Except.ok s') :
    totalIds s' ≤ totalIds s := by
  unfold drawCardE at h
  split at h
  · exact absurd h (by simp)
  next pi' hf =>
    split at h
    · exact absurd h (by simp)
    · split at h
      · injection h with h'
        subst h'
        exact drawInto_total_le hsh s.drawStack s pi'
          (by dsimp only; rw [idsOf_append])
      · split at h
        · exact absurd h (by simp)
        next hdc =>
          dsimp only at h
          split at h
          · exact absurd h (by simp)
          next c d' hpop =>
            injection h with h'
            subst h'
            rw [popCard] at hpop
            injection hpop with hg hdl
            have hE : (ensureDeck sh s).deck.dropLast ++ [c] =
                (ensureDeck sh s).deck :=
              List.dropLast_append_getLast? c (Option.mem_def.mpr hg)
            rw [hdl] at hE
            have hdeck : idsOf (ensureDP sh (s.deck, s.discardPile)).1 =
                idsOf d' + {c.id} := by
              have : (ensureDP sh (s.deck, s.discardPile)).1 = d' ++ [c] := hE.symm
              rw [this, idsOf_append]
              rfl
            have hcons := ensureDP_ids hsh s.deck s.discardPile
            have hflag : handsIds (s.players.set pi'
                { getPlayer s.players pi' with hasCalledUno := false }) ≤
                handsIds s.players := handsIds_flag_le rfl
            show idsOf d' + idsOf (ensureDP sh (s.deck, s.discardPile)).2 +
                handsIds (s.players.set pi'
                  { getPlayer s.players pi' with hasCalledUno := false }) +
                drawnIds (some c) + cacheIds s.playerCache ≤ totalIds s
            calc idsOf d' + idsOf (ensureDP sh (s.deck, s.discardPile)).2 +
                  handsIds (s.players.set pi'
                    { getPlayer s.players pi' with hasCalledUno := false }) +
                  drawnIds (some c) + cacheIds s.playerCache
                ≤ idsOf d' + idsOf (ensureDP sh (s.deck, s.discardPile)).2 +
                  handsIds s.players + drawnIds (some c) +
                  cacheIds s.playerCache := by
                  exact add_le_add_right
                    (add_le_add_right (add_le_add_left hflag _) _) _
              _ = (idsOf d' + {c.id}) +
                  idsOf (ensureDP sh (s.deck, s.discardPile)).2 +
                  handsIds s.players + cacheIds s.playerCache := by
                  have hdc' : drawnIds (some c) = {c.id} := rfl
                  rw [hdc']
                  abel
              _ = idsOf (ensureDP sh (s.deck, s.discardPile)).1 +
                  idsOf (ensureDP sh (s.deck, s.discardPile)).2 +
                  handsIds s.players + cacheIds s.playerCache := by rw [hdeck]
              _ = idsOf s.deck + idsOf s.discardPile + handsIds s.players +
                  cacheIds s.playerCache := by rw [hcons]
              _ ≤ totalIds s := by
                  unfold totalIds
                  exact add_le_add (self_le_add_right _ _) (le_refl _)

theorem passTurnE_total_le {pid : String} {s s' : GameState}
    (h : passTurnE pid s = Except.ok s') : totalIds s' ≤ totalIds s := by
  unfold passTurnE at h
  split at h
  · exact absurd h (by simp)
  next pi' hf =>
    split at h
    · exact absurd h (by simp)
    · split at h
      · exact absurd h (by simp)
      next dc hdc =>
        split at h
        · exact absurd h (by simp)
        · dsimp only at h
          injection h with h'
          subst h'
          have hq : idsOf ({ getPlayer s.players pi' with
              hand := (getPlayer s.players pi').hand ++ [dc],
              hasCalledUno := false } : PlayerState).hand =
              idsOf (getPlayer s.players pi').hand + {dc.id} := by
            dsimp only
            rw [idsOf_append]
            rfl
          have hle := handsIds_set_le hq
          unfold totalIds
          dsimp only
          rw [hdc]
          have h0 : drawnIds none = 0 := rfl
          rw [h0, add_zero]
          calc idsOf s.deck + idsOf s.discardPile +
                handsIds (s.players.set pi'
                  { getPlayer s.players pi' with
                      hand := (getPlayer s.players pi').hand ++ [dc],
                      hasCalledUno := false }) + cacheIds s.playerCache
              ≤ idsOf s.deck + idsOf s.discardPile +
                (handsIds s.players + {dc.id}) + cacheIds s.playerCache := by
                exact add_le_add_right (add_le_add_left hle _) _
            _ = idsOf s.deck + idsOf s.discardPile + handsIds s.players +
                drawnIds (some dc) + cacheIds s.playerCache := by
                have hdc' : drawnIds (some dc) = ({dc.id} : Multiset Nat) := rfl
                rw [hdc']
                abel

theorem callUnoE_total_le {pid : String} {s s' : GameState}
    (h : callUnoE pid s = Except.ok s') : totalIds s' ≤ totalIds s := by
  unfold callUnoE at h
  split at h
  · exact absurd h (by simp)
  next i hf =>
    dsimp only at h
    split at h
    · split at h
      · exact absurd h (by simp)
      · injection h with h'
        subst h'
        have hfl : idsOf ({ getPlayer s.players i with hasCalledUno := true } :
            PlayerState).hand = idsOf (getPlayer s.players i).hand := rfl
        have hle := handsIds_flag_le hfl
        show idsOf s.deck + idsOf s.discardPile +
            handsIds (s.players.set i
              { getPlayer s.players i with hasCalledUno := true }) +
            drawnIds s.drawnCard + cacheIds s.playerCache ≤ totalIds s
        calc idsOf s.deck + idsOf s.discardPile +
              handsIds (s.players.set i
                { getPlayer s.players i with hasCalledUno := true }) +
              drawnIds s.drawnCard + cacheIds s.playerCache
            ≤ idsOf s.deck + idsOf s.discardPile + handsIds s.players +
              drawnIds s.drawnCard + cacheIds s.playerCache :=
              add_le_add_right (add_le_add_right (add_le_add_left hle _) _) _
          _ = totalIds s := rfl
    · exact absurd h (by simp)

theorem playerJoined_total_le {sh : List Card → List Card} (hsh : IsShuffle sh)
    (pid : String) (s : GameState) :
    totalIds (playerJoined sh pid s) ≤ totalIds s := by
  unfold playerJoined
  split
  · exact le_refl _
  · split
    next hand hlook =>
      unfold totalIds
      dsimp only
      rw [handsIds_append, handsIds_singleton]
      have hcl := cacheLookup_erase_le hlook
      calc idsOf s.deck + idsOf s.discardPile +
            (handsIds s.players + idsOf hand) + drawnIds s.drawnCard +
            cacheIds (cacheErase pid s.playerCache)
          = idsOf s.deck + idsOf s.discardPile + handsIds s.players +
            drawnIds s.drawnCard +
            (idsOf hand + cacheIds (cacheErase pid s.playerCache)) := by abel
        _ ≤ idsOf s.deck + idsOf s.discardPile + handsIds s.players +
            drawnIds s.drawnCard + cacheIds s.playerCache :=
            add_le_add_left hcl _
    next hlook =>
      unfold totalIds
      dsimp only
      rw [handsIds_append, handsIds_singleton]
      have hids := drawN_after_ensure_ids hsh 7 s.deck s.discardPile
      refine le_of_eq ?_
      calc idsOf (drawN sh 7 (ensureDP sh (s.deck, s.discardPile))).1 +
            idsOf (drawN sh 7 (ensureDP sh (s.deck, s.discardPile))).2.1 +
            (handsIds s.players +
              idsOf (drawN sh 7 (ensureDP sh (s.deck, s.discardPile))).2.2) +
            drawnIds s.drawnCard + cacheIds s.playerCache
          = (idsOf (drawN sh 7 (ensureDP sh (s.deck, s.discardPile))).1 +
            idsOf (drawN sh 7 (ensureDP sh (s.deck, s.discardPile))).2.1 +
            idsOf (drawN sh 7 (ensureDP sh (s.deck, s.discardPile))).2.2) +
            handsIds s.players + drawnIds s.drawnCard +
            cacheIds s.playerCache := by abel
        _ = (idsOf s.deck + idsOf s.discardPile) + handsIds s.players +
            drawnIds s.drawnCard + cacheIds s.playerCache := by rw [hids]
        _ = idsOf s.deck + idsOf s.discardPile + handsIds s.players +
            drawnIds s.drawnCard + cacheIds s.playerCache := by abel

theorem playerLeft_total_le (pid : String) (s : GameState) :
    totalIds (playerLeft pid s) ≤ totalIds s := by
  unfold playerLeft
  split
  · exact le_refl _
  next idx hfidx =>
    have hlt : idx < s.players.length := findIdxA_lt hfidx
    have he := handsIds_eraseIdx hlt
    have hcs := cacheSet_le pid (getPlayer s.players idx).hand s.playerCache
    have hdr : drawnIds (if idx = s.currentPlayerIndex then none
        else s.drawnCard) ≤ drawnIds s.drawnCard := by
      split
      · exact zero_le _
      · exact le_refl _
    unfold totalIds
    dsimp only
    calc idsOf s.deck + idsOf s.discardPile +
          handsIds (s.players.eraseIdx idx) +
          drawnIds (if idx = s.currentPlayerIndex then none else s.drawnCard) +
          cacheIds (cacheSet pid (getPlayer s.players idx).hand s.playerCache)
        ≤ idsOf s.deck + idsOf s.discardPile +
          handsIds (s.players.eraseIdx idx) + drawnIds s.drawnCard +
          (idsOf (getPlayer s.players idx).hand + cacheIds s.playerCache) :=
          add_le_add (add_le_add_left hdr _) hcs
      _ = idsOf s.deck + idsOf s.discardPile +
          (handsIds (s.players.eraseIdx idx) +
            idsOf (getPlayer s.players idx).hand) +
          drawnIds s.drawnCard + cacheIds s.playerCache := by abel
      _ = idsOf s.deck + idsOf s.discardPile + handsIds s.players +
          drawnIds s.drawnCard + cacheIds s.playerCache := by rw [he]

theorem dealSimple_nil (n : Nat) : dealSimple n ([] : List Card) = ([], []) := by
  cases n with
  | zero => rfl
  | succ n => rfl

theorem dealSimple_succ_concat (n : Nat) (r : List Card) (t : Card) :
    dealSimple (n + 1) (r ++ [t]) =
      ((dealSimple n r).1, t :: (dealSimple n r).2) := by
  conv_lhs => rw [dealSimple]
  have hpop : popCard (r ++ [t]) = (some t, r) := by
    rw [popCard, List.getLast?_concat, List.dropLast_concat]
  rw [hpop]

theorem dealSimple_ids (n : Nat) (d : List Card) :
    idsOf (dealSimple n d).1 + idsOf (dealSimple n d).2 = idsOf d := by
  induction n generalizing d with
  | zero => simp [dealSimple, idsOf_nil]
  | succ n ih =>
    rcases List.eq_nil_or_concat d with hd | ⟨r, t, hd⟩
    · subst hd
      rw [dealSimple_nil]
      simp [idsOf_nil]
    · rw [List.concat_eq_append] at hd
      subst hd
      rw [dealSimple_succ_concat, idsOf_cons]
      have h1 := ih r
      have ht : idsOf [t] = ({t.id} : Multiset Nat) := rfl
      calc idsOf (dealSimple n r).1 + t.id ::ₘ idsOf (dealSimple n r).2
          = (idsOf (dealSimple n r).1 + idsOf (dealSimple n r).2) + {t.id} := by
            rw [← Multiset.singleton_add]
            abel
        _ = idsOf r + {t.id} := by rw [h1]
        _ = idsOf (r ++ [t]) := by rw [idsOf_append, ht]

theorem dealSimple_len (n : Nat) (d : List Card) :
    (dealSimple n d).1.length = d.length - n := by
  induction n generalizing d with
  | zero => simp [dealSimple]
  | succ n ih =>
    rcases List.eq_nil_or_concat d with hd | ⟨r, t, hd⟩
    · subst hd
      rw [dealSimple_nil]
      simp
    · rw [List.concat_eq_append] at hd
      subst hd
      rw [dealSimple_succ_concat]
      dsimp only
      have h1 := ih r
      have h2 : (r ++ [t]).length = r.length + 1 := by simp
      omega

theorem dealAll_step (p : PlayerState) (ps : List PlayerState) (d : List Card) :
    dealAll (p :: ps) d =
      ({ p with hand := p.hand ++ (dealSimple 7 d).2 } ::
         (dealAll ps (dealSimple 7 d).1).1,
       (dealAll ps (dealSimple 7 d).1).2) := by
  conv_lhs => rw [dealAll]

theorem dealAll_ids (ps : List PlayerState) (d : List Card) :
    handsIds (dealAll ps d).1 + idsOf (dealAll ps d).2 =
      handsIds ps + idsOf d := by
  induction ps generalizing d with
  | nil => simp [dealAll, handsIds]
  | cons p ps ih =>
    rw [dealAll_step, handsIds_cons]
    dsimp only
    rw [idsOf_append]
    have h1 := ih (dealSimple 7 d).1
    have h2 := dealSimple_ids 7 d
    calc idsOf p.hand + idsOf (dealSimple 7 d).2 +
          handsIds (dealAll ps (dealSimple 7 d).1).1 +
          idsOf (dealAll ps (dealSimple 7 d).1).2
        = idsOf p.hand +
          (handsIds (dealAll ps (dealSimple 7 d).1).1 +
            idsOf (dealAll ps (dealSimple 7 d).1).2) +
          idsOf (dealSimple 7 d).2 := by abel
      _ = idsOf p.hand + (handsIds ps + idsOf (dealSimple 7 d).1) +
          idsOf (dealSimple 7 d).2 := by rw [h1]
      _ = idsOf p.hand + handsIds ps +
          (idsOf (dealSimple 7 d).1 + idsOf (dealSimple 7 d).2) := by abel
      _ = idsOf p.hand + handsIds ps + idsOf d := by rw [h2]
      _ = handsIds (p :: ps) + idsOf d := by rw [handsIds_cons]

theorem dealAll_players_len (ps : List PlayerState) (d : List Card) :
    (dealAll ps d).1.length = ps.length := by
  induction ps generalizing d with
  | nil => rfl
  | cons p ps ih =>
    rw [dealAll_step]
    simp [ih]

theorem dealAll_deck_len (ps : List PlayerState) (d : List Card) :
    (dealAll ps d).2.length = d.length - 7 * ps.length := by
  induction ps generalizing d with
  | nil => simp [dealAll]
  | cons p ps ih =>
    rw [dealAll_step]
    dsimp only
    rw [ih, dealSimple_len]
    have : 7 * (p :: ps).length = 7 * ps.length + 7 := by
      simp [List.length_cons]
      ring
    omega

theorem startLoop_ids {sh : List Card → List Card} (hsh : IsShuffle sh)
    {c : Card} {d : List Card} :
    ∀ (fuel : Nat) (deck : List Card), deck ≠ [] →
      startLoop sh fuel deck = some (c, d) →
      idsOf d + {c.id} = idsOf deck := by
  intro fuel
  induction fuel with
  | zero =>
    intro deck hne h
    exact absurd h (by simp [startLoop])
  | succ fuel ih =>
    intro deck hne h
    rcases List.eq_nil_or_concat deck with hd | ⟨r, t, hd⟩
    · exact absurd hd hne
    · rw [List.concat_eq_append] at hd
      subst hd
      have h0 : ¬((r ++ [t]).length = 0) := by simp
      rw [startLoop, if_neg h0] at h
      have hpop : popCard (r ++ [t]) = (some t, r) := by
        rw [popCard, List.getLast?_concat, List.dropLast_concat]
      rw [hpop] at h
      dsimp only at h
      split at h
      next htv =>
        have hne2 : sh (t :: r) ≠ [] := by
          intro hh
          have hl := (hsh (t :: r)).length_eq
          rw [hh] at hl
          simp at hl
        have ihh := ih (sh (t :: r)) hne2 h
        calc idsOf d + {c.id} = idsOf (sh (t :: r)) := ihh
          _ = idsOf (t :: r) := idsOf_perm (hsh (t :: r))
          _ = idsOf (r ++ [t]) := by
              rw [idsOf_cons, idsOf_append, ← Multiset.singleton_add]
              have ht : idsOf [t] = ({t.id} : Multiset Nat) := rfl
              rw [ht]
              abel
      next htv =>
        injection h with h'
        injection h' with h1 h2
        rw [← h1, ← h2, idsOf_append]
        rfl

theorem setupEffects_total (sc : Card) (ps : List PlayerState) (d : List Card)
    (hps : ps ≠ []) :
    handsIds (setupEffects sc ps d).2.2.2.1 +
      idsOf (setupEffects sc ps d).2.2.2.2 = handsIds ps + idsOf d := by
  have h0 : ¬(ps.length = 0) := by
    intro hh
    exact hps (List.length_eq_zero.mp hh)
  unfold setupEffects
  rw [if_neg h0]
  split
  · rfl
  · split
    · rfl
    · rfl
  · dsimp only
    have hlt : 0 < ps.length := List.length_pos.mpr hps
    have h1 := handsIds_set
      { getPlayer ps 0 with
          hand := (getPlayer ps 0).hand ++ (dealSimple 2 d).2 } hlt
    dsimp only at h1
    rw [idsOf_append] at h1
    have h2 : handsIds (ps.set 0
        { getPlayer ps 0 with
            hand := (getPlayer ps 0).hand ++ (dealSimple 2 d).2 }) =
        handsIds ps + idsOf (dealSimple 2 d).2 := by
      refine add_right_cancel (b := idsOf (getPlayer ps 0).hand) ?_
      rw [h1]
      abel
    rw [h2]
    have h3 := dealSimple_ids 2 d
    calc handsIds ps + idsOf (dealSimple 2 d).2 + idsOf (dealSimple 2 d).1
        = handsIds ps +
          (idsOf (dealSimple 2 d).1 + idsOf (dealSimple 2 d).2) := by abel
      _ = handsIds ps + idsOf d := by rw [h3]
  · rfl

theorem handsIds_fresh (ids : List String) :
    handsIds (ids.map (fun i => (⟨i, [], false⟩ : PlayerState))) = 0 := by
  induction ids with
  | nil => rfl
  | cons a l ih =>
    rw [List.map_cons, handsIds_cons, ih]
    dsimp only
    rw [idsOf_nil, add_zero]

theorem createDeck_length : createDeck.length = 108 := by decide

/-- `setup` conserves the canonical 108-card identifier multiset: with the
registered player bounds the dealt deck keeps at least 66 cards, so the
start-card loop never reaches its fresh-deck replacement branch. -/
theorem setup_total {sh : List Card → List Card} (hsh : IsShuffle sh)
    {fuel : Nat} {ids : List String} {s : GameState}
    (h1 : 1 ≤ ids.length) (h6 : ids.length ≤ 6)
    (h : setup sh fuel ids = some s) :
    totalIds s = canonicalIds := by
  unfold setup at h
  split at h
  · exact absurd h (by simp)
  next startCard deck2 hSL =>
    injection h with h'
    subst h'
    set P0 := ids.map (fun i => (⟨i, [], false⟩ : PlayerState)) with hP0
    set DL := dealAll P0 (sh createDeck) with hDL
    have hlen : (sh createDeck).length = 108 := by
      rw [(hsh createDeck).length_eq, createDeck_length]
    have hP0len : P0.length = ids.length := by
      rw [hP0]
      exact List.length_map _ _
    have hdl2 : DL.2.length = 108 - 7 * ids.length := by
      rw [hDL, dealAll_deck_len, hlen, hP0len]
    have hne2 : DL.2 ≠ [] := by
      have hpos : 0 < DL.2.length := by omega
      exact List.length_pos.mp hpos
    have hp1ne : DL.1 ≠ [] := by
      have hlp : DL.1.length = ids.length := by
        rw [hDL, dealAll_players_len, hP0len]
      have hpos : 0 < DL.1.length := by omega
      exact List.length_pos.mp hpos
    have hsl := startLoop_ids hsh fuel DL.2 hne2 hSL
    have hSE := setupEffects_total startCard DL.1 deck2 hp1ne
    have hDA := dealAll_ids P0 (sh createDeck)
    have hfresh : handsIds P0 = 0 := by
      rw [hP0]
      exact handsIds_fresh ids
    unfold totalIds
    dsimp only
    have hz1 : drawnIds none = (0 : Multiset Nat) := rfl
    have hz2 : cacheIds [] = (0 : Multiset Nat) := rfl
    have hz3 : idsOf [startCard] = ({startCard.id} : Multiset Nat) := rfl
    rw [hz1, hz2, hz3, add_zero, add_zero]
    calc idsOf (setupEffects startCard DL.1 deck2).2.2.2.2 + {startCard.id} +
          handsIds (setupEffects startCard DL.1 deck2).2.2.2.1
        = (handsIds (setupEffects startCard DL.1 deck2).2.2.2.1 +
            idsOf (setupEffects startCard DL.1 deck2).2.2.2.2) +
          {startCard.id} := by abel
      _ = (handsIds DL.1 + idsOf deck2) + {startCard.id} := by rw [hSE]
      _ = handsIds DL.1 + (idsOf deck2 + {startCard.id}) := by abel
      _ = handsIds DL.1 + idsOf DL.2 := by rw [hsl]
      _ = handsIds P0 + idsOf (sh createDeck) := hDA
      _ = idsOf (sh createDeck) := by rw [hfresh, zero_add]
      _ = idsOf createDeck := idsOf_perm (hsh createDeck)
      _ = canonicalIds := rfl

-- ----------------------------------------------------------------------
-- C1: card conservation
-- ----------------------------------------------------------------------

def junkState : GameState :=
  { deck := [], discardPile := [], players := [], currentPlayerIndex := 0,
    direction := 1, currentColor := Color.red, winner := none,
    drawnCard := none, lastAction := none, drawStack := 0, playerCache := [] }

def okOr (e : Except GameState GameState) : GameState :=
  match e with
  | Except.ok t => t
  | Except.error t => t

/-- A two-player game, first player draws a card and then, still holding
it, plays a wild card from the hand. -/
def cexS0 : GameState := (setup idShuffle 1 ["a", "b"]).getD junkState

def cexS1 : GameState := okOr (drawCardE idShuffle "a" cexS0)

def cexS2 : GameState :=
  okOr (playCardE idShuffle "a" 106 (some Color.green) cexS1)

/-- C1 counterexample: card conservation FAILS on a reachable state.  After
a drawCard, playing a card from the hand while still holding the drawn card
executes the unconditional `game.drawnCard = null` (source line 359), and
the held card (never re-added to the hand) vanishes: only 107 of the 108
identifiers remain in circulation. -/
theorem total_ids_not_conserved :
    Reachable ["a", "b"] cexS2 ∧ totalIds cexS2 ≠ canonicalIds := by
  constructor
  · refine Reachable.play ["a", "b"] idShuffle "a" 106 (some Color.green)
      cexS1 cexS2 ?_ isShuffle_id (by rfl)
    refine Reachable.draw ["a", "b"] idShuffle "a" cexS0 cexS1 ?_
      isShuffle_id (by rfl)
    exact Reachable.start idShuffle 1 ["a", "b"] cexS0 isShuffle_id
      (by decide) (by decide) (by rfl)
  · intro hh
    have h107 : Multiset.card (totalIds cexS2) = 107 := by rfl
    rw [hh] at h107
    have h108 : Multiset.card canonicalIds = 108 := by rfl
    rw [h108] at h107
    exact absurd h107 (by decide)

/-- C1 (amended): in every reachable state the multiset of card
identifiers in deck, discard pile, hands, held drawn card and cached hands
is a sub-multiset of the canonical 108-card set (equality can fail: a held
drawn card is destroyed by an accepted play from the hand, and a winning
early return can keep a card out of circulation permanently). -/
theorem reachable_totalIds_le_canonical {ids : List String} {s : GameState}
    (h : Reachable ids s) : totalIds s ≤ canonicalIds := by
  induction h with
  | start sh fuel ids s hsh h1 h6 hst =>
    exact le_of_eq (setup_total hsh h1 h6 hst)
  | play ids sh pid cid col s s' hr hsh hok ih =>
    exact le_trans (playCardE_total_le hsh hok) ih
  | draw ids sh pid s s' hr hsh hok ih =>
    exact le_trans (drawCardE_total_le hsh hok) ih
  | pass ids pid s s' hr hok ih =>
    exact le_trans (passTurnE_total_le hok) ih
  | uno ids pid s s' hr hok ih =>
    exact le_trans (callUnoE_total_le hok) ih
  | joined ids sh pid s hr hsh ih =>
    exact le_trans (playerJoined_total_le hsh pid s) ih
  | left ids pid s hr ih =>
    exact le_trans (playerLeft_total_le pid s) ih

def c1wState : GameState := (setup idShuffle 1 ["a"]).getD junkState

theorem reachable_totalIds_le_canonical_witness :
    totalIds c1wState ≤ canonicalIds :=
  reachable_totalIds_le_canonical
    (Reachable.start idShuffle 1 ["a"] c1wState isShuffle_id
      (by decide) (by decide) (by rfl))

-- ----------------------------------------------------------------------
-- C3: setup with a drawTwo start card
-- ----------------------------------------------------------------------

/-- A permutation moving the eight drawTwo cards to the top of the deck
(the JS stack top is the array end). -/
def shD2 : List Card → List Card :=
  fun l => l.filter (fun c => !(c.value == Value.drawTwo)) ++
    l.filter (fun c => c.value == Value.drawTwo)

/-- C3: FALSIFIED by the code.  A shuffle placing the drawTwo cards on top
makes `setup` finish with a drawTwo start card; the branch deals the
2-card penalty and advances the turn but never zeroes `drawStack`, so the
returned initial state carries `drawStack = 2` (the main play-card
transition zeroes it on resolution).  The next player is forced to serve
the already-dealt penalty again. -/
theorem setup_drawTwo_leaves_stack :
    (setup shD2 1 ["a"]).isSome = true ∧
    ((setup shD2 1 ["a"]).getD junkState).discardPile.map Card.value =
      [Value.drawTwo] ∧
    ((setup shD2 1 ["a"]).getD junkState).drawStack = 2 :=
  ⟨by rfl, by rfl, by rfl⟩
